import Mathlib

/-!
Shallow embedding of the git worktree orchestration layer of the
openchamber repository (packages/vscode/src/gitService.ts), together with
proofs about the claims of the specification.

Modelling conventions:
- JavaScript strings are Lean String values; most character-level
  operations are carried out on the underlying List Char.
- Machine-visible effects (files, branch refs, remote-tracking refs,
  worktree records, the project metadata store) are recorded in an
  explicit world structure that is threaded through the functions.
- Subprocess invocations of the git binary are modelled by world fields
  holding the observable answer of each read-only query and by explicit
  state transitions for each mutating command.
- Thrown JavaScript errors are modelled with Except String.
-/

set_option maxRecDepth 10000

namespace GitService

/-! ### Basic character and string helpers mirroring JavaScript semantics -/

/-- Character class used by the JavaScript regex \s for the inputs that occur
here (space, tab, carriage return, line feed, form feed, vertical tab). -/
def isJsSpace (c : Char) : Bool :=
  c = ' ' || c = '\t' || c = '\r' || c = '\n' || c = Char.ofNat 12 || c = Char.ofNat 11

/-- Test whether the list s begins with the list pre. -/
def chStartsWith (s pre : List Char) : Bool :=
  match pre, s with
  | [], _ => true
  | _ :: _, [] => false
  | p :: ps, c :: cs => p = c && chStartsWith cs ps

/-- Test whether needle occurs contiguously inside hay, as the JavaScript
String.includes method does. -/
def chIncludes (hay needle : List Char) : Bool :=
  match hay with
  | [] => chStartsWith [] needle
  | _ :: rest => chStartsWith hay needle || chIncludes rest needle

/-- Drop leading characters satisfying p and trailing characters satisfying p,
as the JavaScript String.prototype.trim method does with whitespace. -/
def chDropTrailing (p : Char → Bool) : List Char → List Char
  | [] => []
  | c :: rest =>
    let t := chDropTrailing p rest
    if t.isEmpty && p c then [] else c :: t

/-- JavaScript String.prototype.trim on a character list. -/
def jsTrim (l : List Char) : List Char :=
  chDropTrailing isJsSpace (l.dropWhile isJsSpace)

/-- JavaScript String.prototype.trim on a String. -/
def jsTrimStr (s : String) : String :=
  String.mk (jsTrim s.data)

/-- Index of the first occurrence of c, as String.prototype.indexOf
(none plays the role of the JavaScript result -1). -/
def chIndexOf (c : Char) : List Char → Option Nat
  | [] => none
  | a :: rest =>
    if a = c then some 0
    else match chIndexOf c rest with
      | some i => some (i + 1)
      | none => none

/-- Split a character list at every occurrence of the separator character,
as String.prototype.split with a one-character separator. -/
def chSplitOn (sep : Char) : List Char → List (List Char)
  | [] => [[]]
  | c :: rest =>
    let groups := chSplitOn sep rest
    if c = sep then [] :: groups
    else match groups with
      | [] => [[c]]
      | g :: gs => (c :: g) :: gs

/-- Split a string into the pieces between occurrences of sep. -/
def jsSplit (s : String) (sep : Char) : List String :=
  (chSplitOn sep s.data).map String.mk

/-- Lower-case the ASCII letters of a string, the fragment of
String.prototype.toLowerCase exercised here. -/
def jsToLower (s : String) : String :=
  String.mk (s.data.map Char.toLower)

/-- JavaScript String.prototype.includes on String values. -/
def jsIncludes (hay needle : String) : Bool :=
  chIncludes hay.data needle.data

/-- JavaScript String.prototype.startsWith on String values. -/
def jsStartsWith (s pre : String) : Bool :=
  chStartsWith s.data pre.data

/-- JavaScript String.prototype.slice with a start index only. -/
def jsDropStr (s : String) (n : Nat) : String :=
  String.mk (s.data.drop n)

/-- JavaScript String.prototype.slice from 0 to an end index. -/
def jsTakeStr (s : String) (n : Nat) : String :=
  String.mk (s.data.take n)

/-- Numeric value of a list of decimal digits, as parseInt with radix 10
reads the digits matched by a digit-group regex. -/
def digitsToNat (ds : List Char) : Nat :=
  ds.foldl (fun n c => 10 * n + (c.toNat - 48)) 0

/-! ### Merge and rebase conflict classification (gitService.ts lines 2558 to 2709)

The subprocess result of the merge or rebase invocation and the porcelain
status output used for conflict-file recovery enter as explicit arguments. -/

/-- Observable outcome of one subprocess invocation of the git binary:
captured stdout, captured stderr and the exit code. -/
structure ExecOut where
  stdout : String
  stderr : String
  exitCode : Nat
deriving Repr, DecidableEq

/-- Result record of the merge and rebase operations. Optional TypeScript
fields are Option values; a missing field is none. -/
structure GitMergeResult where
  success : Bool
  conflict : Option Bool := none
  conflictFiles : Option (List String) := none
deriving Repr, DecidableEq

/-- Conflict-file recovery shared by merge, rebase and both continuations:
keep the porcelain status lines starting with UU, AA or DD and take the
path after the three-character status prefix. -/
def extractConflictFiles (statusStdout : String) : List String :=
  ((jsSplit statusStdout '\n').filter
      (fun line => jsStartsWith line "UU" || jsStartsWith line "AA" || jsStartsWith line "DD")).map
    (fun line => jsTrimStr (jsDropStr line 3))

/-- Embedding of the merge function: exit code 0 succeeds; a nonzero exit
whose lower-cased combined output contains one of the phrases conflict,
merge conflict or automatic merge failed is the conflict outcome with the
recovered file list; any other nonzero exit throws the raw stderr. -/
def merge (result : ExecOut) (statusStdout : String) : Except String GitMergeResult :=
  if result.exitCode = 0 then
    .ok { success := true, conflict := some false }
  else
    let output := jsToLower (result.stdout ++ result.stderr)
    let isConflict :=
      jsIncludes output "conflict" ||
      jsIncludes output "merge conflict" ||
      jsIncludes output "automatic merge failed"
    if isConflict then
      .ok { success := false, conflict := some true,
            conflictFiles := some (extractConflictFiles statusStdout) }
    else
      .error (if result.stderr = "" then "Merge failed" else result.stderr)

/-- Embedding of the rebase function; the phrase list differs from merge:
conflict, could not apply, merge conflict. -/
def rebase (result : ExecOut) (statusStdout : String) : Except String GitMergeResult :=
  if result.exitCode = 0 then
    .ok { success := true, conflict := some false }
  else
    let output := jsToLower (result.stdout ++ result.stderr)
    let isConflict :=
      jsIncludes output "conflict" ||
      jsIncludes output "could not apply" ||
      jsIncludes output "merge conflict"
    if isConflict then
      .ok { success := false, conflict := some true,
            conflictFiles := some (extractConflictFiles statusStdout) }
    else
      .error (if result.stderr = "" then "Rebase failed" else result.stderr)

/-! ### Status code mapping of the structured adapter (gitService.ts lines 314 to 338)

The structured adapter reports file states as the numeric Status enum of
the VS Code git extension; the table below is the literal numeric table of
the source, with the enum value names recorded as definitions. -/

/-- Map a structured-adapter status code to the one-character code of the
interface; codes outside the table map to a single space. -/
def mapStatus (status : Nat) : String :=
  if status = 0 then "M"
  else if status = 1 then "A"
  else if status = 2 then "D"
  else if status = 3 then "R"
  else if status = 4 then "C"
  else if status = 5 then "M"
  else if status = 6 then "D"
  else if status = 7 then "?"
  else if status = 8 then "!"
  else if status = 9 then "A"
  else if status = 10 then "R"
  else if status = 11 then "T"
  else if status = 12 then "U"
  else if status = 13 then "U"
  else if status = 14 then "U"
  else if status = 15 then "U"
  else if status = 16 then "U"
  else if status = 17 then "U"
  else if status = 18 then "U"
  else " "

/-- Status enum value INDEX_MODIFIED. -/
def STATUS_INDEX_MODIFIED : Nat := 0
/-- Status enum value INDEX_ADDED. -/
def STATUS_INDEX_ADDED : Nat := 1
/-- Status enum value INDEX_DELETED. -/
def STATUS_INDEX_DELETED : Nat := 2
/-- Status enum value INDEX_RENAMED. -/
def STATUS_INDEX_RENAMED : Nat := 3
/-- Status enum value INDEX_COPIED. -/
def STATUS_INDEX_COPIED : Nat := 4
/-- Status enum value MODIFIED. -/
def STATUS_MODIFIED : Nat := 5
/-- Status enum value DELETED. -/
def STATUS_DELETED : Nat := 6
/-- Status enum value UNTRACKED. -/
def STATUS_UNTRACKED : Nat := 7
/-- Status enum value IGNORED. -/
def STATUS_IGNORED : Nat := 8
/-- Status enum value INTENT_TO_ADD. -/
def STATUS_INTENT_TO_ADD : Nat := 9
/-- Status enum value INTENT_TO_RENAME. -/
def STATUS_INTENT_TO_RENAME : Nat := 10
/-- Status enum value TYPE_CHANGED. -/
def STATUS_TYPE_CHANGED : Nat := 11
/-- Status enum value ADDED_BY_US. -/
def STATUS_ADDED_BY_US : Nat := 12
/-- Status enum value ADDED_BY_THEM. -/
def STATUS_ADDED_BY_THEM : Nat := 13
/-- Status enum value DELETED_BY_US. -/
def STATUS_DELETED_BY_US : Nat := 14
/-- Status enum value DELETED_BY_THEM. -/
def STATUS_DELETED_BY_THEM : Nat := 15
/-- Status enum value BOTH_ADDED. -/
def STATUS_BOTH_ADDED : Nat := 16
/-- Status enum value BOTH_DELETED. -/
def STATUS_BOTH_DELETED : Nat := 17
/-- Status enum value BOTH_MODIFIED. -/
def STATUS_BOTH_MODIFIED : Nat := 18

/-! ### SSH key path validation and identity configuration (gitService.ts lines 2439 to 2517)

The git config store is modelled as an append-only write log; the platform
switch process.platform enters as an explicit Boolean argument. Only the
raw-git fallback path of setGitIdentity is modelled (structured adapter
absent), which performs the same writes in the same order. -/

/-- ASCII single quote. -/
def sq : Char := Char.ofNat 39

/-- ASCII backtick. -/
def bq : Char := Char.ofNat 96

/-- ASCII double quote. -/
def dq : Char := Char.ofNat 34

/-- ASCII backslash. -/
def bsl : Char := Char.ofNat 92

/-- ASCII opening curly bracket. -/
def lcb : Char := Char.ofNat 123

/-- ASCII closing curly bracket. -/
def rcb : Char := Char.ofNat 125

/-- Characters of the injection denylist regex of escapeSshKeyPath. -/
def dangerousChars : List Char :=
  [bq, '$', bsl, '!', dq, sq, ';', '&', '|', '<', '>', '(', ')', lcb, rcb,
   '[', ']', '*', '?', '#', '~']

/-- Replace every single quote by the four-character sequence quote,
backslash, quote, quote, as the Unix branch of escapeSshKeyPath does. -/
def chEscapeQuotes (l : List Char) : List Char :=
  l.flatMap (fun c => if c = sq then [sq, bsl, sq, sq] else [c])

/-- Embedding of escapeSshKeyPath: reject paths containing a denylist
character before anything else; otherwise return the path wrapped in single
quotes, after the MSYS drive-letter rewrite on Windows. -/
def escapeSshKeyPath (isWindows : Bool) (sshKeyPath : String) : Except String String :=
  if sshKeyPath.data.any (fun c => c ∈ dangerousChars) then
    .error ("SSH key path contains invalid characters: " ++ sshKeyPath)
  else if isWindows then
    let unixPath := sshKeyPath.data.map (fun c => if c = bsl then '/' else c)
    let unixPath2 :=
      match unixPath with
      | c :: ':' :: '/' :: rest =>
        if c.isAlpha then '/' :: c.toLower :: '/' :: rest else unixPath
      | _ => unixPath
    .ok (String.mk (sq :: unixPath2 ++ [sq]))
  else
    .ok (String.mk (sq :: chEscapeQuotes sshKeyPath.data ++ [sq]))

/-- Embedding of buildSshCommand. -/
def buildSshCommand (isWindows : Bool) (sshKeyPath : String) : Except String String :=
  (escapeSshKeyPath isWindows sshKeyPath).map
    (fun escapedPath => "ssh -i " ++ escapedPath ++ " -o IdentitiesOnly=yes")

/-- Observable git configuration state: the ordered log of config writes. -/
structure ConfigWorld where
  gitConfig : List (String × String)
deriving Repr, DecidableEq

/-- Embedding of setGitIdentity: the SSH command is built once, before any
configuration write, so a denylist rejection throws with the config store
untouched; afterwards user.name, user.email and (when a key was given)
core.sshCommand are written in order. An empty-string key is falsy in the
source and is treated like an absent key. -/
def setGitIdentity (isWindows : Bool) (w : ConfigWorld) (userName userEmail : String)
    (sshKey : Option String) : Except String Bool × ConfigWorld :=
  let key := match sshKey with
    | some k => if k = "" then none else some k
    | none => none
  match key with
  | some k =>
    match buildSshCommand isWindows k with
    | .error e => (.error e, w)
    | .ok sshCommand =>
      (.ok true,
       { w with gitConfig := w.gitConfig ++
           [("user.name", userName), ("user.email", userEmail),
            ("core.sshCommand", sshCommand)] })
  | none =>
    (.ok true,
     { w with gitConfig := w.gitConfig ++
         [("user.name", userName), ("user.email", userEmail)] })

/-! ### Fallback status path (gitService.ts lines 395 to 520)

The porcelain status subprocess result and the contents of the in-progress
marker files enter as explicit arguments. The branch header line is parsed
by a backtracking implementation of the header regex of the source, with a
lazily matched branch group, an optional lazily matched tracking group
after three dots, and an optional trailing bracket group. -/

/-- File entry of a status result. -/
structure GitStatusFile where
  path : String
  index : String
  working_dir : String
deriving Repr, DecidableEq

/-- Merge-in-progress marker data. -/
structure GitMergeInProgress where
  head : String
  message : String
deriving Repr, DecidableEq

/-- Rebase-in-progress marker data. -/
structure GitRebaseInProgress where
  headName : String
  onto : String
deriving Repr, DecidableEq

/-- Status record returned by the status engine. Optional TypeScript fields
are Option values; a field the source leaves absent is none. -/
structure GitStatusResult where
  current : String
  tracking : Option String
  ahead : Nat
  behind : Nat
  files : List GitStatusFile
  isClean : Bool
  mergeInProgress : Option GitMergeInProgress := none
  rebaseInProgress : Option GitRebaseInProgress := none
deriving Repr, DecidableEq

/-- Contents of the in-progress operation marker files of one repository:
none models a stat failure, some holds the file content. The head-name and
onto fields hold the files inside the rebase state directory the source
chooses (rebase-merge when present, else rebase-apply). -/
structure InProgressFiles where
  mergeHeadFile : Option String := none
  mergeMsgFile : Option String := none
  rebaseMergeDir : Bool := false
  rebaseApplyDir : Bool := false
  headNameFile : Option String := none
  ontoFile : Option String := none

/-- Remove the first occurrence of pat, as String.prototype.replace with a
string pattern and an empty replacement. -/
def chRemoveFirst (pat : List Char) : List Char → List Char
  | [] => []
  | c :: rest =>
    if chStartsWith (c :: rest) pat && !pat.isEmpty then (c :: rest).drop pat.length
    else c :: chRemoveFirst pat rest

/-- Embedding of checkInProgressOperations on the marker file contents. -/
def checkInProgressOperations (w : InProgressFiles) :
    Option GitMergeInProgress × Option GitRebaseInProgress :=
  let mip : Option GitMergeInProgress :=
    match w.mergeHeadFile with
    | none => none
    | some content =>
      let headSha := jsTakeStr (jsTrimStr content) 7
      if headSha = "" then none
      else
        let mergeMsg := w.mergeMsgFile.getD ""
        some { head := headSha, message := (jsSplit mergeMsg '\n').headD "" }
  let rip : Option GitRebaseInProgress :=
    if w.rebaseMergeDir || w.rebaseApplyDir then
      let headName := w.headNameFile.getD ""
      let onto := w.ontoFile.getD ""
      let headNameTrimmed := String.mk (chRemoveFirst "refs/heads/".data (jsTrim headName.data))
      let ontoTrimmed := jsTakeStr (jsTrimStr onto) 7
      if headNameTrimmed ≠ "" || ontoTrimmed ≠ "" then
        some { headName := headNameTrimmed, onto := ontoTrimmed }
      else none
    else none
  (mip, rip)

/-- Match the trailing tracking-info bracket group: mandatory whitespace,
an opening bracket, a nonempty greedy content group, and a closing bracket
that must end the line. -/
def trackSuffixGroup (s : List Char) : Option (List Char) :=
  let ws := s.takeWhile isJsSpace
  if ws.isEmpty then none
  else
    match s.drop ws.length with
    | '[' :: rest =>
      if rest.getLast? = some ']' ∧ 2 ≤ rest.length then some rest.dropLast else none
    | _ => none

/-- Backtracking scan of the lazily matched tracking group followed by the
optional bracket group and the end of the line. -/
def scanG2 : List Char → List Char → Option (String × Option String)
  | g2rev, [] => if g2rev.isEmpty then none else some (String.mk g2rev.reverse, none)
  | g2rev, c :: rest =>
    if g2rev.isEmpty then scanG2 [c] rest
    else
      match trackSuffixGroup (c :: rest) with
      | some info => some (String.mk g2rev.reverse, some (String.mk info))
      | none => scanG2 (c :: g2rev) rest

/-- Three dots, the separator between branch and tracking ref. -/
def dots3 : List Char := ['.', '.', '.']

/-- Backtracking scan of the lazily matched branch group: at each split
point first try the three-dot tracking alternative, then the trailing
bracket group, then extend the branch group by one character. -/
def scanG1 : List Char → List Char → Option (String × Option String × Option String)
  | g1rev, [] => if g1rev.isEmpty then none else some (String.mk g1rev.reverse, none, none)
  | g1rev, c :: rest =>
    if g1rev.isEmpty then scanG1 [c] rest
    else
      let s := c :: rest
      let viaDots : Option (String × Option String × Option String) :=
        if chStartsWith s dots3 then
          match scanG2 [] (s.drop 3) with
          | some (g2, info) => some (String.mk g1rev.reverse, some g2, info)
          | none => none
        else none
      match viaDots with
      | some r => some r
      | none =>
        match trackSuffixGroup s with
        | some info => some (String.mk g1rev.reverse, none, some (String.mk info))
        | none => scanG1 (c :: g1rev) rest

/-- Parse the porcelain branch header line with the header regex of the
source; the regex requires the literal prefix of two hashes and a space. -/
def parseBranchHeader (line : String) : Option (String × Option String × Option String) :=
  if jsStartsWith line "## " then scanG1 [] (line.data.drop 3) else none

/-- First occurrence of key followed by at least one decimal digit; the
numeric value of the maximal digit run after it, as the ahead and behind
count regexes read the tracking info. -/
def findNumAfterKey (key : List Char) : List Char → Option Nat
  | [] => none
  | c :: rest =>
    if chStartsWith (c :: rest) key then
      let ds := ((c :: rest).drop key.length).takeWhile Char.isDigit
      if ds.isEmpty then findNumAfterKey key rest else some (digitsToNat ds)
    else findNumAfterKey key rest

/-- Accumulator of the line loop of getGitStatusRaw. -/
structure RawStatusAcc where
  current : String := ""
  tracking : Option String := none
  ahead : Nat := 0
  behind : Nat := 0
  files : List GitStatusFile := []
deriving Repr, DecidableEq

/-- Process one status line: a branch header line updates the branch data
when the header regex matches, any other line is a file entry. -/
def processStatusLine (acc : RawStatusAcc) (line : String) : RawStatusAcc :=
  if jsStartsWith line "##" then
    match parseBranchHeader line with
    | some (g1, g2, g3) =>
      let trackingInfo := g3.getD ""
      { acc with
        current := g1
        tracking := g2.bind (fun t => if t = "" then none else some t)
        ahead := (findNumAfterKey "ahead ".data trackingInfo.data).getD 0
        behind := (findNumAfterKey "behind ".data trackingInfo.data).getD 0 }
    | none => acc
  else
    { acc with files := acc.files ++
        [{ path := jsTrimStr (jsDropStr line 3),
           index := String.mk [line.data.headD ' '],
           working_dir := String.mk [line.data.getD 1 ' '] }] }

/-- Clean empty status record returned by the fallback path on a nonzero
exit of the status subprocess. -/
def emptyGitStatus : GitStatusResult :=
  { current := "", tracking := none, ahead := 0, behind := 0, files := [], isClean := true }

/-- Embedding of getGitStatusRaw: a nonzero exit of the porcelain status
command yields the clean empty record without consulting the marker files;
otherwise the nonempty lines of the trimmed output are folded through the
line processor and the in-progress markers are attached. -/
def getGitStatusRaw (statusResult : ExecOut) (ipw : InProgressFiles) : GitStatusResult :=
  if statusResult.exitCode ≠ 0 then emptyGitStatus
  else
    let lines := (jsSplit (jsTrimStr statusResult.stdout) '\n').filter (fun l => l ≠ "")
    let acc := lines.foldl processStatusLine {}
    let inProgress := checkInProgressOperations ipw
    { current := acc.current, tracking := acc.tracking, ahead := acc.ahead,
      behind := acc.behind, files := acc.files, isClean := acc.files.isEmpty,
      mergeInProgress := inProgress.1, rebaseInProgress := inProgress.2 }

/-! ### Worktree name slugs (gitService.ts lines 790 to 826)

The slug pipeline of slugWorktreeName is a composition of character-level
rewrites; runs of characters are collapsed by a single traversal carrying a
flag that records whether the previous character belonged to a run. -/

/-- Replace every maximal run of characters satisfying p by the single
character rep; the flag records whether the current position continues a
run already replaced. -/
def collapseAux (p : Char → Bool) (rep : Char) : Bool → List Char → List Char
  | _, [] => []
  | inRun, c :: rest =>
    if p c then
      if inRun then collapseAux p rep true rest
      else rep :: collapseAux p rep true rest
    else c :: collapseAux p rep false rest

/-- Global replacement of runs matching a character class by one character,
as the replace calls with a plus-quantified class regex do. -/
def collapseRuns (p : Char → Bool) (rep : Char) (l : List Char) : List Char :=
  collapseAux p rep false l

/-- Remove the given leading literal if present, as a replace call with a
start-anchored literal regex does. -/
def chDropPre (pre l : List Char) : List Char :=
  if chStartsWith l pre then l.drop pre.length else l

/-- Character class A-Z a-z 0-9 dot underscore hyphen kept by the slug. -/
def allowedSlugChar (c : Char) : Bool :=
  c.isAlpha || c.isDigit || c = '.' || c = '_' || c = '-'

/-- Hyphen test. -/
def isDash (c : Char) : Bool := c == '-'

/-- Slash test. -/
def isSlash (c : Char) : Bool := c == '/'

/-- First six slug steps of slugWorktreeName: trim, strip the ref
prefixes, collapse whitespace runs to hyphens, strip leading and trailing
slashes, and turn the remaining slashes into hyphens. -/
def slugPreSteps (value : String) : List Char :=
  let s0 := jsTrim value.data
  let s1 := chDropPre "refs/heads/".data s0
  let s2 := chDropPre "heads/".data s1
  let s3 := collapseRuns isJsSpace '-' s2
  let s4 := chDropTrailing isSlash (s3.dropWhile isSlash)
  s4.map (fun c => if c = '/' then '-' else c)

/-- Result of slugWorktreeName before the final 80-character cap: after
the pre-steps, collapse runs of disallowed characters to hyphens, collapse
hyphen runs, and strip leading and trailing hyphens. The final cap is the
only step that can reintroduce a trailing hyphen. -/
def slugWorktreeNameNoCap (value : String) : List Char :=
  let s6 := collapseRuns (fun c => !allowedSlugChar c) '-' (slugPreSteps value)
  let s7 := collapseRuns isDash '-' s6
  chDropTrailing isDash (s7.dropWhile isDash)

/-- Embedding of slugWorktreeName: the full pipeline, capped at 80. -/
def slugWorktreeName (value : String) : String :=
  String.mk ((slugWorktreeNameNoCap value).take 80)

/-! ### Branch reference helpers (gitService.ts lines 194 to 208 and 889 to 942) -/

/-- Embedding of cleanBranchName: strip one leading ref prefix. -/
def cleanBranchName (branch : String) : String :=
  if branch = "" then branch
  else if jsStartsWith branch "refs/heads/" then jsDropStr branch 11
  else if jsStartsWith branch "heads/" then jsDropStr branch 6
  else if jsStartsWith branch "refs/" then jsDropStr branch 5
  else branch

/-- Embedding of normalizeStartRef: trimmed value, defaulting to HEAD. -/
def normalizeStartRef (value : Option String) : String :=
  let trimmed := jsTrimStr (value.getD "")
  if trimmed = "" then "HEAD" else trimmed

/-- Parsed remote branch reference. -/
structure RemoteBranchRef where
  remote : String
  branch : String
  remoteRef : String
  fullRef : String
deriving Repr, DecidableEq

/-- Literal refs/remotes/ as characters. -/
def refsRemotesPre : List Char := "refs/remotes/".data

/-- Literal remotes/ as characters. -/
def remotesPre : List Char := "remotes/".data

/-- Split a canonicalized remote/branch body at its first slash; a missing
slash, a slash at position zero or a slash as the last character is a
rejection. -/
def splitRemoteRest (rest : List Char) : Option RemoteBranchRef :=
  match chIndexOf '/' rest with
  | none => none
  | some slashIndex =>
    if slashIndex = 0 ∨ slashIndex = rest.length - 1 then none
    else some
      { remote := String.mk (rest.take slashIndex)
        branch := String.mk (rest.drop (slashIndex + 1))
        remoteRef := String.mk rest
        fullRef := String.mk (refsRemotesPre ++ rest) }

/-- Embedding of parseRemoteBranchRef. The source recurses once on a
remotes/ prefix by prepending refs/; the prepended string is already
trimmed and starts with refs/remotes/, so that recursion reduces to the
refs/remotes branch applied to the part after remotes/. -/
def parseRemoteBranchRef (value : String) : Option RemoteBranchRef :=
  let trimmed := jsTrim value.data
  if trimmed.isEmpty then none
  else if chStartsWith trimmed refsRemotesPre then
    splitRemoteRest (trimmed.drop refsRemotesPre.length)
  else if chStartsWith trimmed remotesPre then
    splitRemoteRest (trimmed.drop remotesPre.length)
  else
    splitRemoteRest trimmed

/-- Upstream target with its combined display form. -/
structure UpstreamTarget where
  remote : String
  branch : String
  full : String
deriving Repr, DecidableEq

/-- Embedding of normalizeUpstreamTarget. -/
def normalizeUpstreamTarget (remote branch : Option String) : Option UpstreamTarget :=
  let remoteName := jsTrimStr (remote.getD "")
  let branchName := jsTrimStr (branch.getD "")
  if remoteName = "" ∨ branchName = "" then none
  else some { remote := remoteName, branch := branchName,
              full := remoteName ++ "/" ++ branchName }

/-! ### Path helpers -/

/-- Index of the last occurrence of c. -/
def chLastIndexOf (c : Char) (l : List Char) : Option Nat :=
  match chIndexOf c l.reverse with
  | none => none
  | some i => some (l.length - 1 - i)

/-- Directory part of a slash-separated path, as path.dirname behaves on
the normalized absolute paths that occur here. -/
def jsDirname (s : String) : String :=
  match chLastIndexOf '/' s.data with
  | none => "."
  | some 0 => "/"
  | some i => String.mk (s.data.take i)

/-- Embedding of normalizeDirectoryPath with the home directory made an
explicit argument. -/
def normalizeDirectoryPath (homedir : String) (value : String) : String :=
  let trimmed := jsTrimStr value
  if trimmed = "" then trimmed
  else if trimmed = "~" then homedir
  else if jsStartsWith trimmed "~/" || jsStartsWith trimmed (String.mk ['~', bsl]) then
    homedir ++ "/" ++ jsDropStr trimmed 2
  else trimmed

/-! ### Worktree name candidates (gitService.ts lines 790 to 811 and 1033 to 1044)

Math.random sampling is modelled by an explicit pick stream: candidate
index i draws the pair of list indices rng i, reduced modulo the list
lengths, which reaches exactly the values the uniform floor sampling of
the source can produce. -/

/-- Adjective word list of the random name generator. -/
def OPENCODE_ADJECTIVES : List String :=
  ["brave", "calm", "clever", "cosmic", "crisp", "curious", "eager", "gentle", "glowing", "happy",
   "hidden", "jolly", "kind", "lucky", "mighty", "misty", "neon", "nimble", "playful", "proud",
   "quick", "quiet", "shiny", "silent", "stellar", "sunny", "swift", "tidy", "witty"]

/-- Noun word list of the random name generator. -/
def OPENCODE_NOUNS : List String :=
  ["cabin", "cactus", "canyon", "circuit", "comet", "eagle", "engine", "falcon", "forest", "garden",
   "harbor", "island", "knight", "lagoon", "meadow", "moon", "mountain", "nebula", "orchid", "otter",
   "panda", "pixel", "planet", "river", "rocket", "sailor", "squid", "star", "tiger", "wizard", "wolf"]

/-- Attempt budget of the candidate loop. -/
def OPENCODE_WORKTREE_ATTEMPTS : Nat := 26

/-- Uniform pick from a word list, indexed by the pick stream value. -/
def pickRandom (values : List String) (k : Nat) : String :=
  values.getD (k % values.length) ""

/-- Random adjective-noun name. -/
def generateOpenCodeRandomName (pick : Nat × Nat) : String :=
  pickRandom OPENCODE_ADJECTIVES pick.1 ++ "-" ++ pickRandom OPENCODE_NOUNS pick.2

/-- Embedding of resolveWorktreeNameCandidates: the bare slug first, then
suffixed variants; with an empty slug, twenty-six random names. -/
def resolveWorktreeNameCandidates (rng : Nat → Nat × Nat) (baseName : String) : List String :=
  let normalizedBase := slugWorktreeName baseName
  if normalizedBase = "" then
    (List.range OPENCODE_WORKTREE_ATTEMPTS).map (fun i => generateOpenCodeRandomName (rng i))
  else
    (List.range OPENCODE_WORKTREE_ATTEMPTS).map (fun i =>
      if i = 0 then normalizedBase
      else normalizedBase ++ "-" ++ generateOpenCodeRandomName (rng i))

/-! ### Worktree lifecycle world

The observable machine state of the worktree lifecycle functions: marker
file, branch refs, remote-tracking refs, configured remotes, parsed
worktree records, filesystem paths, and the metadata store sandboxes list.
Read-only subprocess queries (ls-remote, rev-parse verify, rev-parse HEAD)
and path canonicalization are world-supplied functions; mutating commands
are explicit state transitions. Captured stderr of failing git commands is
abstracted as empty, so a throwing wrapper raises its fallback message.
The fire-and-forget post-create start scripts run detached from the
synchronous call and are outside this state. -/

/-- Parsed entry of the worktree list porcelain output. -/
structure WorktreeListEntry where
  worktree : String
  head : Option String := none
  branchRef : Option String := none
  branch : Option String := none
deriving Repr, DecidableEq

/-- Creation payload of validateWorktreeCreate and createWorktree. -/
structure CreateGitWorktreePayload where
  mode : Option String := none
  worktreeName : Option String := none
  name : Option String := none
  branchName : Option String := none
  existingBranch : Option String := none
  startRef : Option String := none
  startCommand : Option String := none
  setUpstream : Bool := false
  upstreamRemote : Option String := none
  upstreamBranch : Option String := none
  ensureRemoteName : Option String := none
  ensureRemoteUrl : Option String := none

/-- Removal payload of removeWorktree. -/
structure RemoveGitWorktreePayload where
  directory : String
  deleteLocalBranch : Option Bool := none

/-- Coded validation error. -/
structure GitWorktreeValidationError where
  code : String
  message : String
deriving Repr, DecidableEq

/-- Resolved part of a validation result. -/
structure ResolvedValidation where
  mode : String
  localBranch : Option String
deriving Repr, DecidableEq

/-- Validation result of validateWorktreeCreate. -/
structure GitWorktreeValidationResult where
  ok : Bool
  errors : List GitWorktreeValidationError
  resolved : Option ResolvedValidation := none
deriving Repr, DecidableEq

/-- Worktree record returned by createWorktree. -/
structure GitWorktreeInfo where
  head : String
  name : String
  branch : String
  path : String
deriving Repr, DecidableEq

/-- World state of the worktree lifecycle manager. -/
structure WtWorld where
  homedir : String := "/home/user"
  openCodeDataPath : String := "/data/opencode"
  topLevel : Option String := none
  commonDir : Option String := none
  idFile : Option String := none
  revListRoots : Option String := none
  localBranches : List String := []
  remoteRefs : List (String × String) := []
  fetchOk : String → String → Bool := fun _ _ => false
  lsRemote : String → String → Option Bool := fun _ _ => none
  revParseOk : String → Bool := fun _ => false
  remotes : List (String × String) := []
  worktrees : Option (List WorktreeListEntry) := none
  dirs : List String := []
  sandboxes : List String := []
  worktreeAddOk : Bool := true
  resetOk : Bool := true
  headOf : String → String := fun _ => ""
  canon : String → String := fun s => s
  rng : Nat → Nat × Nat := fun _ => (0, 0)
  configLog : List (String × String) := []
  upstreamSet : List (String × String) := []

/-- Repository context resolved from a directory. -/
structure WtCtx where
  projectID : String
  sandbox : String
  primaryWorktree : String
  worktreeRoot : String
deriving Repr, DecidableEq

/-- First string if nonempty, else the second, as JavaScript or-chains on
strings behave. -/
def jsOrElse (a b : String) : String := if a ≠ "" then a else b

/-- Insert into an ascending list, keeping the order. -/
def insertSorted (a : String) : List String → List String
  | [] => [a]
  | b :: rest => if a ≤ b then a :: b :: rest else b :: insertSorted a rest

/-- Ascending lexicographic sort of the root hashes, as the argument-less
JavaScript Array.prototype.sort orders strings. -/
def sortStrings : List String → List String
  | [] => []
  | a :: rest => insertSorted a (sortStrings rest)

/-- Embedding of ensureOpenCodeProjectId: return the cached trimmed marker
content when present; otherwise derive the project ID as the smallest root
commit hash, create the marker directory and write the marker file. -/
def ensureOpenCodeProjectId (w : WtWorld) (primaryWorktree : String) :
    Except String String × WtWorld :=
  let gitDir := primaryWorktree ++ "/.git"
  let existing := jsTrimStr (w.idFile.getD "")
  if existing ≠ "" then (.ok existing, w)
  else
    match w.revListRoots with
    | none => (.error "Failed to resolve repository roots", w)
    | some out =>
      let roots := sortStrings (((jsSplit out '\n').map jsTrimStr).filter (fun s => s ≠ ""))
      let projectId := roots.headD ""
      if projectId = "" then (.error "Failed to derive OpenCode project ID", w)
      else
        (.ok projectId,
         { w with
           dirs := if w.dirs.contains gitDir then w.dirs else gitDir :: w.dirs
           idFile := some projectId })

/-- Embedding of resolveWorktreeProjectContext; the top-level and common
directories are world-supplied already-resolved absolute paths. -/
def resolveWorktreeProjectContext (w : WtWorld) (directory : String) :
    Except String WtCtx × WtWorld :=
  let directoryPath := normalizeDirectoryPath w.homedir directory
  if directoryPath = "" then (.error "Directory is required", w)
  else
    match w.topLevel with
    | none => (.error "Failed to resolve git top-level directory", w)
    | some sandbox =>
      match w.commonDir with
      | none => (.error "Failed to resolve git common directory", w)
      | some commonDir =>
        let primaryWorktree := jsDirname commonDir
        match ensureOpenCodeProjectId w primaryWorktree with
        | (.error e, w1) => (.error e, w1)
        | (.ok projectID, w1) =>
          (.ok { projectID := projectID, sandbox := sandbox,
                 primaryWorktree := primaryWorktree,
                 worktreeRoot := w.openCodeDataPath ++ "/worktree/" ++ projectID }, w1)

/-- Embedding of listWorktreeEntries: the parsed worktree list, or the
throw of the listing wrapper. -/
def listWorktreeEntries (w : WtWorld) : Except String (List WorktreeListEntry) :=
  match w.worktrees with
  | none => .error "Failed to list git worktrees"
  | some entries => .ok entries

/-- Embedding of findBranchInUse: the first worktree entry whose branch ref
matches the target local branch. -/
def findBranchInUse (w : WtWorld) (localBranchName : String) :
    Except String (Option WorktreeListEntry) :=
  if localBranchName = "" then .ok none
  else
    match listWorktreeEntries w with
    | .error e => .error e
    | .ok entries =>
      let targetRef := "refs/heads/" ++ localBranchName
      let targetClean := cleanBranchName targetRef
      .ok (entries.find? (fun entry =>
        let entryRef := jsTrimStr (entry.branchRef.getD "")
        let entryClean := cleanBranchName (jsOrElse entryRef (entry.branch.getD ""))
        entryRef == targetRef || entryClean == targetClean))

/-- Embedding of fetchRemoteBranchRef: blank names are a silent no-op; a
successful fetch makes the remote-tracking ref present; a failing fetch
throws the fetch fallback message. -/
def fetchRemoteBranchRef (w : WtWorld) (remoteName branchName : String) :
    Except String Unit × WtWorld :=
  let remote := jsTrimStr remoteName
  let branch := jsTrimStr branchName
  if remote = "" || branch = "" then (.ok (), w)
  else if w.fetchOk remote branch then
    (.ok (),
     { w with remoteRefs :=
         if w.remoteRefs.contains (remote, branch) then w.remoteRefs
         else (remote, branch) :: w.remoteRefs })
  else (.error ("Failed to fetch " ++ remote ++ "/" ++ branch), w)

/-- Embedding of checkRemoteBranchExists: first component is query success,
second whether the remote head was listed. -/
def checkRemoteBranchExists (w : WtWorld) (remoteName branchName remoteUrl : String) :
    Bool × Bool :=
  let remote := jsTrimStr remoteName
  let branch := jsTrimStr branchName
  let url := jsTrimStr remoteUrl
  if remote = "" || branch = "" then (false, false)
  else
    match w.lsRemote (jsOrElse url remote) branch with
    | none => (false, false)
    | some found => (true, found)

/-- Embedding of ensureRemoteWithUrl: blank arguments are a no-op; an
existing remote has its URL updated when it differs; a missing remote is
added. The url writes themselves are modelled as succeeding. -/
def ensureRemoteWithUrl (w : WtWorld) (remoteName remoteUrl : String) : WtWorld :=
  let name := jsTrimStr remoteName
  let url := jsTrimStr remoteUrl
  if name = "" || url = "" then w
  else
    match w.remotes.find? (fun p => p.1 == name) with
    | some p =>
      if p.2 ≠ url then
        { w with remotes := w.remotes.map (fun q => if q.1 == name then (name, url) else q) }
      else w
    | none => { w with remotes := (name, url) :: w.remotes }

/-- Embedding of setBranchTrackingFallback: the two low-level tracking
configuration writes, recorded in the config log. -/
def setBranchTrackingFallback (w : WtWorld) (localBranch : String) (upstream : UpstreamTarget) :
    WtWorld :=
  { w with configLog := w.configLog ++
      [("branch." ++ localBranch ++ ".remote", upstream.remote),
       ("branch." ++ localBranch ++ ".merge", "refs/heads/" ++ upstream.branch)] }

/-- Embedding of applyUpstreamConfiguration: optional remote ensure, then
fetch and set the upstream, falling back to direct tracking configuration
when the fetch fails. -/
def applyUpstreamConfiguration (w : WtWorld) (localBranch : String) (setUpstream : Bool)
    (upstreamRemote upstreamBranch ensureRemoteName ensureRemoteUrl : String) :
    Except String Unit × WtWorld :=
  if !setUpstream then (.ok (), w)
  else
    let w1 := if ensureRemoteName ≠ "" ∧ ensureRemoteUrl ≠ "" then
        ensureRemoteWithUrl w ensureRemoteName ensureRemoteUrl
      else w
    match normalizeUpstreamTarget (some upstreamRemote) (some upstreamBranch) with
    | none => (.ok (), w1)
    | some upstream =>
      if localBranch = "" then (.ok (), w1)
      else
        match fetchRemoteBranchRef w1 upstream.remote upstream.branch with
        | (.ok _, w2) =>
          (.ok (), { w2 with upstreamSet := w2.upstreamSet ++ [(localBranch, upstream.full)] })
        | (.error _, w2) => (.ok (), setBranchTrackingFallback w2 localBranch upstream)

/-- Resolution outcome of resolveBranchForExistingMode. -/
structure ResolvedExisting where
  localBranch : String
  checkoutRef : String
  createLocalBranch : Bool
  remoteRef : Option RemoteBranchRef
deriving Repr, DecidableEq

/-- Shared tail of resolveBranchForExistingMode once the remote-tracking
ref is known present. -/
def resolveExistingFinish (w : WtWorld) (requested preferredBranchName : String)
    (remoteRef : RemoteBranchRef) : Except String ResolvedExisting × WtWorld :=
  let localBranch := cleanBranchName (jsOrElse preferredBranchName (jsOrElse remoteRef.branch requested))
  if localBranch = "" then
    (.error "Failed to resolve local branch name for existing branch worktree", w)
  else
    (.ok { localBranch := localBranch, checkoutRef := remoteRef.remoteRef,
           createLocalBranch := true, remoteRef := some remoteRef }, w)

/-- Embedding of resolveBranchForExistingMode: use a local branch directly;
otherwise parse as a remote branch, fetching it (with the fetch error
swallowed) when its tracking ref is absent, and rechecking afterwards. -/
def resolveBranchForExistingMode (w : WtWorld) (existingBranch preferredBranchName : String) :
    Except String ResolvedExisting × WtWorld :=
  let requested := jsTrimStr existingBranch
  if requested = "" then (.error "existingBranch is required in existing mode", w)
  else
    let normalizedLocal := cleanBranchName requested
    if w.localBranches.contains normalizedLocal then
      (.ok { localBranch := normalizedLocal, checkoutRef := normalizedLocal,
             createLocalBranch := false, remoteRef := none }, w)
    else
      match parseRemoteBranchRef requested with
      | none => (.error ("Branch not found: " ++ requested), w)
      | some remoteRef =>
        if w.remoteRefs.contains (remoteRef.remote, remoteRef.branch) then
          resolveExistingFinish w requested preferredBranchName remoteRef
        else
          let w1 := (fetchRemoteBranchRef w remoteRef.remote remoteRef.branch).2
          if w1.remoteRefs.contains (remoteRef.remote, remoteRef.branch) then
            resolveExistingFinish w1 requested preferredBranchName remoteRef
          else (.error ("Remote branch not found: " ++ requested), w1)

/-- Normalization applied by the metadata store on every read: trim the
entries and drop the blanks. -/
def sandboxNorm (l : List String) : List String :=
  (l.map jsTrimStr).filter (fun s => s ≠ "")

/-- Order-preserving de-duplication, as spreading a Set does. -/
def dedupAux (seen : List String) : List String → List String
  | [] => []
  | a :: rest => if seen.contains a then dedupAux seen rest else a :: dedupAux (a :: seen) rest

/-- Embedding of updateProjectSandboxes restricted to the sandboxes list:
read-normalize, apply the updater, then normalize and de-duplicate on
write. Only the sandboxes field of the project record is modelled. -/
def updateSandboxes (w : WtWorld) (f : List String → List String) : WtWorld :=
  { w with sandboxes := dedupAux [] (sandboxNorm (f (sandboxNorm w.sandboxes))) }

/-- Embedding of syncProjectSandboxAdd. -/
def syncProjectSandboxAdd (w : WtWorld) (sandboxPath : String) : WtWorld :=
  let sandbox := jsTrimStr sandboxPath
  if sandbox = "" then w
  else updateSandboxes w (fun l => if l.contains sandbox then l else l ++ [sandbox])

/-- Embedding of syncProjectSandboxRemove. -/
def syncProjectSandboxRemove (w : WtWorld) (sandboxPath : String) : WtWorld :=
  let sandbox := jsTrimStr sandboxPath
  if sandbox = "" then w
  else updateSandboxes w (fun l => l.filter (fun entry => entry ≠ sandbox))

/-- Accepted candidate of the naming loop. -/
structure CandidateResult where
  name : String
  directory : String
  branch : String
deriving Repr, DecidableEq

/-- Candidate loop of resolveCandidateDirectory: skip a candidate whose
directory exists; with an explicit branch override accept immediately;
otherwise also skip a candidate whose derived branch already exists. -/
def resolveCandidateDirectoryGo (w : WtWorld) (worktreeRoot explicitBranchName : String) :
    List String → Except String CandidateResult
  | [] => .error "Failed to generate a unique worktree name"
  | name :: rest =>
    let directory := worktreeRoot ++ "/" ++ name
    if w.dirs.contains directory then
      resolveCandidateDirectoryGo w worktreeRoot explicitBranchName rest
    else if explicitBranchName ≠ "" then
      .ok { name := name, directory := directory, branch := explicitBranchName }
    else
      let branch := "openchamber/" ++ name
      if w.localBranches.contains branch then
        resolveCandidateDirectoryGo w worktreeRoot explicitBranchName rest
      else .ok { name := name, directory := directory, branch := branch }

/-- Embedding of resolveCandidateDirectory. -/
def resolveCandidateDirectory (w : WtWorld)
    (worktreeRoot preferredName explicitBranchName : String) :
    Except String CandidateResult :=
  resolveCandidateDirectoryGo w worktreeRoot explicitBranchName
    (resolveWorktreeNameCandidates w.rng preferredName)

/-- Specification predicate: no two adjacent hyphens. -/
def noDoubleDash : List Char → Bool
  | [] => true
  | [_] => true
  | a :: b :: rest => !(a == '-' && b == '-') && noDoubleDash (b :: rest)

/-! ### Validation (gitService.ts lines 1428 to 1564) -/

/-- Existing-mode branch resolution part of validateWorktreeCreate. With a
matching paired remote override the branch is checked over the wire via
ls-remote; otherwise the shared existing-mode resolution runs (which may
fetch). A thrown resolution error is caught and becomes branch_not_found.
The result triple carries the collected errors, the resolved local branch,
and the inferred upstream pair. -/
def validateExistingPart (w : WtWorld)
    (requested preferredBranchName ensureRemoteName ensureRemoteUrl : String) :
    (List GitWorktreeValidationError × String × Option (String × String)) × WtWorld :=
  let viaPairedRemote :=
    match parseRemoteBranchRef requested with
    | some p =>
      if ensureRemoteName ≠ "" ∧ ensureRemoteUrl ≠ "" ∧ ensureRemoteName = p.remote then
        some p
      else none
    | none => none
  match viaPairedRemote with
  | some p =>
    match w.lsRemote ensureRemoteUrl p.branch with
    | none =>
      (([{ code := "branch_not_found",
           message := "Unable to query remote " ++ ensureRemoteName }], "", none), w)
    | some false =>
      (([{ code := "branch_not_found",
           message := "Remote branch not found: " ++ p.remoteRef }], "", none), w)
    | some true =>
      (([], cleanBranchName (jsOrElse preferredBranchName p.branch),
        some (p.remote, p.branch)), w)
  | none =>
    match resolveBranchForExistingMode w requested preferredBranchName with
    | (.error e, w1) => (([{ code := "branch_not_found", message := e }], "", none), w1)
    | (.ok resolved, w1) =>
      (([], resolved.localBranch,
        resolved.remoteRef.map (fun r => (r.remote, r.branch))), w1)

/-- New-mode part of validateWorktreeCreate: branch_exists on an existing
preferred branch, then the start-ref checks. Read-only. -/
def validateNewPart (w : WtWorld)
    (preferredBranchName startRef ensureRemoteName ensureRemoteUrl : String) :
    List GitWorktreeValidationError × String × Option (String × String) :=
  let errsA :=
    if preferredBranchName ≠ "" ∧ w.localBranches.contains preferredBranchName then
      [{ code := "branch_exists",
         message := "Branch already exists: " ++ preferredBranchName }]
    else []
  let localBranch := preferredBranchName
  let parsedRemoteRef := parseRemoteBranchRef startRef
  let errsB :=
    if startRef ≠ "" ∧ startRef ≠ "HEAD" then
      match parsedRemoteRef with
      | some p =>
        if ensureRemoteName ≠ "" ∧ ensureRemoteUrl ≠ "" ∧ ensureRemoteName = p.remote then
          let rc := checkRemoteBranchExists w p.remote p.branch ensureRemoteUrl
          if !rc.1 then
            [{ code := "remote_unreachable",
               message := "Unable to query remote " ++ ensureRemoteName }]
          else if !rc.2 then
            [{ code := "start_ref_not_found",
               message := "Remote branch not found: " ++ p.remoteRef }]
          else []
        else
          let rc := checkRemoteBranchExists w p.remote p.branch ""
          if !rc.1 then
            [{ code := "remote_unreachable",
               message := "Unable to query remote " ++ p.remote }]
          else if !rc.2 then
            [{ code := "start_ref_not_found",
               message := "Remote branch not found: " ++ p.remoteRef }]
          else []
      | none =>
        if w.revParseOk startRef then []
        else [{ code := "start_ref_not_found", message := "Start ref not found: " ++ startRef }]
    else []
  (errsA ++ errsB, localBranch, parsedRemoteRef.map (fun p => (p.remote, p.branch)))

/-- Common tail of validateWorktreeCreate: in-use detection (whose listing
failure escalates to validation_failed), paired remote completeness, and
the upstream checks. -/
def validateCommonTail (w : WtWorld) (modeStr : String)
    (errs : List GitWorktreeValidationError) (localBranch : String)
    (inferredUpstream : Option (String × String))
    (ensureRemoteName ensureRemoteUrl : String)
    (setUpstream : Bool) (upstreamRemoteIn upstreamBranchIn : String) :
    GitWorktreeValidationResult :=
  match (if localBranch ≠ "" then findBranchInUse w localBranch else .ok none) with
  | .error e => { ok := false, errors := [{ code := "validation_failed", message := e }] }
  | .ok inUseOpt =>
    let errs2 := errs ++
      (match inUseOpt with
       | some entry =>
         [{ code := "branch_in_use",
            message := "Branch is already checked out in " ++ entry.worktree }]
       | none => [])
    let errs3 := errs2 ++
      (if (ensureRemoteName ≠ "" ∧ ensureRemoteUrl = "") ∨
          (ensureRemoteName = "" ∧ ensureRemoteUrl ≠ "") then
        [{ code := "invalid_remote_config",
           message := "Both ensureRemoteName and ensureRemoteUrl are required together" }]
      else [])
    let errs4 := errs3 ++
      (if setUpstream then
        let upstreamRemote := jsTrimStr (jsOrElse upstreamRemoteIn
          ((inferredUpstream.map (fun p => p.1)).getD ""))
        let upstreamBranch := jsTrimStr (jsOrElse upstreamBranchIn
          ((inferredUpstream.map (fun p => p.2)).getD ""))
        if upstreamRemote = "" ∨ upstreamBranch = "" then
          [{ code := "upstream_incomplete",
             message := "upstreamRemote and upstreamBranch are required when setUpstream is true" }]
        else
          let remoteExists := (w.remotes.find? (fun p => p.1 == upstreamRemote)).isSome
          if !remoteExists ∧ (ensureRemoteName = "" ∨ ensureRemoteName ≠ upstreamRemote) then
            [{ code := "remote_not_found", message := "Remote not found: " ++ upstreamRemote }]
          else []
      else [])
    { ok := errs4.isEmpty, errors := errs4,
      resolved := some { mode := modeStr,
                         localBranch := if localBranch = "" then none else some localBranch } }

/-- Embedding of validateWorktreeCreate. -/
def validateWorktreeCreate (w : WtWorld) (directory : String)
    (input : CreateGitWorktreePayload) : GitWorktreeValidationResult × WtWorld :=
  let mode := if input.mode = some "existing" then "existing" else "new"
  match resolveWorktreeProjectContext w directory with
  | (.error e, w1) =>
    ({ ok := false, errors := [{ code := "validation_failed", message := e }] }, w1)
  | (.ok _, w1) =>
    let preferredBranchName := cleanBranchName (jsTrimStr (input.branchName.getD ""))
    let startRef := normalizeStartRef input.startRef
    let ensureRemoteName := jsTrimStr (input.ensureRemoteName.getD "")
    let ensureRemoteUrl := jsTrimStr (input.ensureRemoteUrl.getD "")
    let (modeData, w2) :=
      if mode = "existing" then
        validateExistingPart w1 (jsTrimStr (input.existingBranch.getD ""))
          preferredBranchName ensureRemoteName ensureRemoteUrl
      else
        (validateNewPart w1 preferredBranchName startRef ensureRemoteName ensureRemoteUrl, w1)
    (validateCommonTail w2 mode modeData.1 modeData.2.1 modeData.2.2
      ensureRemoteName ensureRemoteUrl input.setUpstream
      (input.upstreamRemote.getD "") (input.upstreamBranch.getD ""), w2)

/-! ### Creation (gitService.ts lines 1566 to 1693) -/

/-- Shared tail of createWorktree: ensure the paired remote, fetch the
remote start ref (new mode), run worktree add with no checkout, populate
with a hard reset, register the sandbox, and optionally configure the
upstream. -/
def createWorktreeFinish (w : WtWorld) (candidate : CandidateResult)
    (localBranch : String) (createBranchFlag : Bool)
    (fetchStartRef : Option (String × String))
    (ensureRemoteName ensureRemoteUrl : String)
    (setUpstream : Bool) (upstreamRemote upstreamBranch : String) :
    Except String GitWorktreeInfo × WtWorld :=
  let w1 := if ensureRemoteName ≠ "" ∧ ensureRemoteUrl ≠ "" then
      ensureRemoteWithUrl w ensureRemoteName ensureRemoteUrl
    else w
  match (match fetchStartRef with
         | some (r, b) => fetchRemoteBranchRef w1 r b
         | none => (.ok (), w1)) with
  | (.error e, w2) => (.error e, w2)
  | (.ok _, w2) =>
    if !w2.worktreeAddOk then (.error "Failed to create git worktree", w2)
    else
      let w3 := { w2 with
        dirs := candidate.directory :: w2.dirs
        localBranches :=
          if createBranchFlag then localBranch :: w2.localBranches else w2.localBranches
        worktrees := w2.worktrees.map (fun es => es ++
          [{ worktree := candidate.directory,
             head := some (w2.headOf candidate.directory),
             branchRef := some ("refs/heads/" ++ localBranch),
             branch := some localBranch }]) }
      if !w3.resetOk then (.error "Failed to populate worktree", w3)
      else
        let w4 := syncProjectSandboxAdd w3 candidate.directory
        match (if setUpstream then
                 applyUpstreamConfiguration w4 localBranch true
                   upstreamRemote upstreamBranch ensureRemoteName ensureRemoteUrl
               else (.ok (), w4)) with
        | (.error e, w5) => (.error e, w5)
        | (.ok _, w5) =>
          let head := jsTrimStr (w5.headOf candidate.directory)
          (.ok { head := head, name := candidate.name, branch := localBranch,
                 path := candidate.directory }, w5)

/-- New-mode body of createWorktree after candidate resolution. -/
def createWorktreeNew (w : WtWorld) (candidate : CandidateResult)
    (startRef ensureRemoteName ensureRemoteUrl : String)
    (setUpstream : Bool) (upstreamRemoteIn upstreamBranchIn : String) :
    Except String GitWorktreeInfo × WtWorld :=
  let localBranch := candidate.branch
  if localBranch = "" then (.error "Failed to resolve branch name for new worktree", w)
  else if w.localBranches.contains localBranch then
    (.error ("Branch already exists: " ++ localBranch), w)
  else
    match findBranchInUse w localBranch with
    | .error e => (.error e, w)
    | .ok (some entry) =>
      (.error ("Branch is already checked out in " ++ entry.worktree), w)
    | .ok none =>
      let inferredUpstream := (parseRemoteBranchRef startRef).map (fun p => (p.remote, p.branch))
      createWorktreeFinish w candidate localBranch true inferredUpstream
        ensureRemoteName ensureRemoteUrl setUpstream
        (jsTrimStr (jsOrElse upstreamRemoteIn ((inferredUpstream.map (fun p => p.1)).getD "")))
        (jsTrimStr (jsOrElse upstreamBranchIn ((inferredUpstream.map (fun p => p.2)).getD "")))

/-- Existing-mode body of createWorktree after candidate resolution. -/
def createWorktreeExisting (w : WtWorld) (candidate : CandidateResult)
    (requested preferredBranchName ensureRemoteName ensureRemoteUrl : String)
    (setUpstream : Bool) (upstreamRemoteIn upstreamBranchIn : String) :
    Except String GitWorktreeInfo × WtWorld :=
  let paired :=
    match parseRemoteBranchRef requested with
    | some p =>
      if ensureRemoteName ≠ "" ∧ ensureRemoteUrl ≠ "" ∧ p.remote = ensureRemoteName then
        some p
      else none
    | none => none
  let pre : Except String Unit × WtWorld :=
    match paired with
    | some p =>
      let wA := ensureRemoteWithUrl w ensureRemoteName ensureRemoteUrl
      fetchRemoteBranchRef wA p.remote p.branch
    | none => (.ok (), w)
  match pre with
  | (.error e, w1) => (.error e, w1)
  | (.ok _, w1) =>
    match resolveBranchForExistingMode w1 requested preferredBranchName with
    | (.error e, w2) => (.error e, w2)
    | (.ok resolved, w2) =>
      match findBranchInUse w2 resolved.localBranch with
      | .error e => (.error e, w2)
      | .ok (some entry) =>
        (.error ("Branch is already checked out in " ++ entry.worktree), w2)
      | .ok none =>
        let inferredUpstream := resolved.remoteRef.map (fun r => (r.remote, r.branch))
        createWorktreeFinish w2 candidate resolved.localBranch resolved.createLocalBranch
          none ensureRemoteName ensureRemoteUrl setUpstream
          (jsTrimStr (jsOrElse upstreamRemoteIn ((inferredUpstream.map (fun p => p.1)).getD "")))
          (jsTrimStr (jsOrElse upstreamBranchIn ((inferredUpstream.map (fun p => p.2)).getD "")))

/-- Embedding of createWorktree. -/
def createWorktree (w : WtWorld) (directory : String)
    (input : CreateGitWorktreePayload) : Except String GitWorktreeInfo × WtWorld :=
  let mode := if input.mode = some "existing" then "existing" else "new"
  match resolveWorktreeProjectContext w directory with
  | (.error e, w1) => (.error e, w1)
  | (.ok context, w1) =>
    let w2 := { w1 with
      dirs := if w1.dirs.contains context.worktreeRoot then w1.dirs
              else context.worktreeRoot :: w1.dirs }
    let preferredName := jsTrimStr (jsOrElse (input.worktreeName.getD "") (input.name.getD ""))
    let preferredBranchName := cleanBranchName (jsTrimStr (input.branchName.getD ""))
    let startRef := normalizeStartRef input.startRef
    let ensureRemoteName := jsTrimStr (input.ensureRemoteName.getD "")
    let ensureRemoteUrl := jsTrimStr (input.ensureRemoteUrl.getD "")
    match resolveCandidateDirectory w2 context.worktreeRoot preferredName
        (if mode = "new" ∧ preferredBranchName ≠ "" then preferredBranchName else "") with
    | .error e => (.error e, w2)
    | .ok candidate =>
      if mode = "existing" then
        createWorktreeExisting w2 candidate (jsTrimStr (input.existingBranch.getD ""))
          preferredBranchName ensureRemoteName ensureRemoteUrl input.setUpstream
          (input.upstreamRemote.getD "") (input.upstreamBranch.getD "")
      else
        createWorktreeNew w2 candidate startRef ensureRemoteName ensureRemoteUrl
          input.setUpstream (input.upstreamRemote.getD "") (input.upstreamBranch.getD "")

/-! ### Removal (gitService.ts lines 1695 to 1763) -/

/-- Embedding of removeWorktree: refuse to remove the primary worktree; a
target absent from the worktree list is treated as already detached, with a
best-effort directory delete and an unconditional metadata deregistration;
otherwise force-remove the worktree record and directory, optionally
force-delete the local branch, and deregister. -/
def removeWorktree (w : WtWorld) (directory : String)
    (input : RemoveGitWorktreePayload) : Except String Bool × WtWorld :=
  let targetDirectory := normalizeDirectoryPath w.homedir input.directory
  if targetDirectory = "" then (.error "Worktree directory is required", w)
  else
    match resolveWorktreeProjectContext w directory with
    | (.error e, w1) => (.error e, w1)
    | (.ok context, w1) =>
      let deleteLocalBranch := input.deleteLocalBranch = some true
      let targetCanonical := w1.canon targetDirectory
      let primaryCanonical := w1.canon context.primaryWorktree
      if targetCanonical = primaryCanonical then
        (.error "Cannot remove the primary workspace", w1)
      else
        match listWorktreeEntries w1 with
        | .error e => (.error e, w1)
        | .ok entries =>
          match entries.find? (fun entry =>
              entry.worktree != "" && w1.canon entry.worktree == targetCanonical) with
          | none =>
            let w2 := if w1.dirs.contains targetDirectory then
                { w1 with dirs := w1.dirs.filter (fun d => d ≠ targetDirectory) }
              else w1
            (.ok true, syncProjectSandboxRemove w2 targetDirectory)
          | some entry =>
            let w2 := { w1 with
              worktrees := w1.worktrees.map (fun es =>
                es.filter (fun e2 => e2.worktree ≠ entry.worktree))
              dirs := w1.dirs.filter (fun d => d ≠ entry.worktree) }
            let branchName := cleanBranchName (jsTrimStr
              (jsOrElse (entry.branchRef.getD "") (entry.branch.getD "")))
            if deleteLocalBranch ∧ branchName ≠ "" then
              if w2.localBranches.contains branchName then
                let w3 := { w2 with
                  localBranches := w2.localBranches.filter (fun b => b ≠ branchName) }
                (.ok true, syncProjectSandboxRemove w3 entry.worktree)
              else (.error ("Failed to delete local branch " ++ branchName), w2)
            else (.ok true, syncProjectSandboxRemove w2 entry.worktree)

/-- Rejection test of one naming-loop candidate: its target directory
already exists, or — without an explicit branch override — its derived
branch is already a local branch. -/
def candidateRejected (w : WtWorld) (worktreeRoot explicitBranchName name : String) : Bool :=
  w.dirs.contains (worktreeRoot ++ "/" ++ name) ||
    (explicitBranchName == "" && w.localBranches.contains ("openchamber/" ++ name))

/-- Concrete repository world of the creation scenarios: cached project
marker abc123, one main branch, no directory under the worktree root. -/
def demoWorld : WtWorld :=
  { topLevel := some "/repo", commonDir := some "/repo/.git", idFile := some "abc123",
    worktrees := some [], localBranches := ["main"], dirs := ["/repo", "/repo/.git"] }

/-- The demo world with the demo candidate directory already taken. -/
def demoTakenWorld : WtWorld :=
  { demoWorld with dirs := "/data/opencode/worktree/abc123/demo" :: demoWorld.dirs }

/-- The demo world with every candidate directory taken: the constant
random stream makes all suffixed candidates the same name. -/
def demoExhaustedWorld : WtWorld :=
  { demoWorld with dirs := "/data/opencode/worktree/abc123/demo" ::
      "/data/opencode/worktree/abc123/demo-brave-cabin" :: demoWorld.dirs }

/-! ## Theorems -/

/-! ### C8: status mapping table -/

/-- C8 counterexample: the claim counts eight ambiguous conflict states
mapped to U, but the status table maps exactly seven codes to U. -/
theorem c8_counterexample :
    ((List.range 19).filter (fun n => mapStatus n = "U")).length = 7 ∧
    ((List.range 19).filter (fun n => mapStatus n = "U")).length ≠ 8 := by
  decide

/-- C8 (amended): the status mapping sends modified to M, added and
intent-to-add to A, deleted to D, renamed and intent-to-rename to R,
copied to C, untracked to the question mark, ignored to the exclamation
mark, type-changed to T, each of the seven ambiguous conflict states to U,
and every code outside the table to a single space; the codes mapped to U
are exactly the seven values 12 to 18. -/
theorem c8_mapStatus_table :
    (mapStatus STATUS_INDEX_MODIFIED = "M" ∧ mapStatus STATUS_MODIFIED = "M" ∧
     mapStatus STATUS_INDEX_ADDED = "A" ∧ mapStatus STATUS_INTENT_TO_ADD = "A" ∧
     mapStatus STATUS_INDEX_DELETED = "D" ∧ mapStatus STATUS_DELETED = "D" ∧
     mapStatus STATUS_INDEX_RENAMED = "R" ∧ mapStatus STATUS_INTENT_TO_RENAME = "R" ∧
     mapStatus STATUS_INDEX_COPIED = "C" ∧
     mapStatus STATUS_UNTRACKED = "?" ∧
     mapStatus STATUS_IGNORED = "!" ∧
     mapStatus STATUS_TYPE_CHANGED = "T" ∧
     mapStatus STATUS_ADDED_BY_US = "U" ∧ mapStatus STATUS_ADDED_BY_THEM = "U" ∧
     mapStatus STATUS_DELETED_BY_US = "U" ∧ mapStatus STATUS_DELETED_BY_THEM = "U" ∧
     mapStatus STATUS_BOTH_ADDED = "U" ∧ mapStatus STATUS_BOTH_DELETED = "U" ∧
     mapStatus STATUS_BOTH_MODIFIED = "U") ∧
    (∀ n : Nat, mapStatus n = "U" ↔ 12 ≤ n ∧ n ≤ 18) ∧
    (∀ n : Nat, 18 < n → mapStatus n = " ") := by
  refine ⟨by decide, ?_, ?_⟩
  · intro n
    by_cases h : n ≤ 18
    · interval_cases n <;> simp [mapStatus]
    · unfold mapStatus
      repeat rw [if_neg (by omega)]
      constructor
      · intro hu
        exact absurd hu (by decide)
      · intro ⟨_, h2⟩
        omega
  · intro n hn
    unfold mapStatus
    repeat rw [if_neg (by omega)]

/-- C8 witness: the theorem applied at the concrete out-of-table code 42. -/
theorem c8_mapStatus_table_witness : 18 < 42 ∧ mapStatus 42 = " " :=
  ⟨by decide, c8_mapStatus_table.2.2 42 (by decide)⟩

/-! ### C10: fallback status on a failing status subprocess -/

/-- C10: when the underlying porcelain status command exits nonzero, the
fallback status path reports no error and returns the record with empty
current branch, null tracking, zero ahead and behind, no files and a clean
flag; the same record is what a genuinely clean status output with no
parsed branch name produces, so the two are indistinguishable. -/
theorem c10_getGitStatusRaw_error_clean :
    (∀ (r : ExecOut) (ipw : InProgressFiles), r.exitCode ≠ 0 →
      getGitStatusRaw r ipw = emptyGitStatus) ∧
    emptyGitStatus = { current := "", tracking := none, ahead := 0, behind := 0,
                       files := [], isClean := true,
                       mergeInProgress := none, rebaseInProgress := none } ∧
    getGitStatusRaw { stdout := "", stderr := "", exitCode := 0 } {} = emptyGitStatus := by
  refine ⟨?_, rfl, by decide⟩
  intro r ipw h
  unfold getGitStatusRaw
  rw [if_pos h]

/-- C10 witness: the theorem applied at a concrete failing invocation. -/
theorem c10_getGitStatusRaw_witness :
    (128 : Nat) ≠ 0 ∧
    getGitStatusRaw { stdout := "fatal: not a git repository", stderr := "err", exitCode := 128 }
      { mergeHeadFile := some "abcdef1234", rebaseMergeDir := true } = emptyGitStatus :=
  ⟨by decide,
   c10_getGitStatusRaw_error_clean.1
     { stdout := "fatal: not a git repository", stderr := "err", exitCode := 128 }
     { mergeHeadFile := some "abcdef1234", rebaseMergeDir := true } (by decide)⟩

/-! ### C3: merge and rebase conflict classification -/

/-- Starting with a literal is the same as the prefix of that length being
equal to the literal. -/
theorem chStartsWith_iff (s pre : List Char) :
    chStartsWith s pre = true ↔ s.take pre.length = pre := by
  induction pre generalizing s with
  | nil => simp [chStartsWith]
  | cons p ps ih =>
    cases s with
    | nil => simp [chStartsWith]
    | cons c cs =>
      simp only [chStartsWith, Bool.and_eq_true, decide_eq_true_eq, ih,
        List.length_cons, List.take_succ_cons, List.cons.injEq]
      constructor
      · rintro ⟨h1, h2⟩; exact ⟨h1.symm, h2⟩
      · rintro ⟨h1, h2⟩; exact ⟨h1.symm, h2⟩

/-- String-level form: a startsWith test equals comparing the slice of the
literal length against the literal. -/
theorem jsStartsWith_eq_beq (l p : String) :
    jsStartsWith l p = (jsTakeStr l p.length == p) := by
  rw [jsStartsWith, jsTakeStr]
  cases hb : chStartsWith l.data p.data with
  | false =>
    symm
    rw [beq_eq_false_iff_ne]
    intro hc
    have hdata : l.data.take p.length = p.data := congrArg String.data hc
    have : chStartsWith l.data p.data = true := (chStartsWith_iff _ _).mpr hdata
    rw [hb] at this
    exact Bool.false_ne_true this
  | true =>
    symm
    rw [beq_iff_eq]
    exact congrArg String.mk ((chStartsWith_iff _ _).mp hb)

/-- C3 counterexample: a merge invocation with nonzero exit whose output
contains the phrase could not apply (one of the conflict-indicating phrases
of the claim) throws the raw stderr instead of returning the conflict
outcome, because the merge phrase list does not include could not apply. -/
theorem c3_counterexample :
    (1 : Nat) ≠ 0 ∧
    jsIncludes (jsToLower ("" ++ "could not apply")) "could not apply" = true ∧
    merge { stdout := "", stderr := "could not apply", exitCode := 1 } "" =
      .error "could not apply" := by
  refine ⟨by decide, by decide, by rfl⟩

/-- C3 (amended): exit code 0 yields the success outcome for both merge
and rebase; a nonzero exit is the non-error conflict outcome exactly when
the lower-cased combined output contains one of the phrases of the
respective operation (conflict, merge conflict, automatic merge failed for
merge; conflict, could not apply, merge conflict for rebase), with the
conflict files recovered as the paths of the porcelain status lines whose
two-character prefix is UU, AA or DD; any other nonzero exit throws an
error carrying the raw stderr; and the concrete conflict example yields
exactly the file x.txt. -/
theorem c3_merge_rebase_classification :
    (∀ (r : ExecOut) (s : String), r.exitCode = 0 →
      merge r s = .ok { success := true, conflict := some false, conflictFiles := none }) ∧
    (∀ (r : ExecOut) (s : String), r.exitCode = 0 →
      rebase r s = .ok { success := true, conflict := some false, conflictFiles := none }) ∧
    (∀ (r : ExecOut) (s : String), r.exitCode ≠ 0 →
      (jsIncludes (jsToLower (r.stdout ++ r.stderr)) "conflict" ||
       jsIncludes (jsToLower (r.stdout ++ r.stderr)) "merge conflict" ||
       jsIncludes (jsToLower (r.stdout ++ r.stderr)) "automatic merge failed") = true →
      merge r s = .ok { success := false, conflict := some true,
                        conflictFiles := some (extractConflictFiles s) }) ∧
    (∀ (r : ExecOut) (s : String), r.exitCode ≠ 0 →
      (jsIncludes (jsToLower (r.stdout ++ r.stderr)) "conflict" ||
       jsIncludes (jsToLower (r.stdout ++ r.stderr)) "could not apply" ||
       jsIncludes (jsToLower (r.stdout ++ r.stderr)) "merge conflict") = true →
      rebase r s = .ok { success := false, conflict := some true,
                         conflictFiles := some (extractConflictFiles s) }) ∧
    (∀ (r : ExecOut) (s : String), r.exitCode ≠ 0 →
      (jsIncludes (jsToLower (r.stdout ++ r.stderr)) "conflict" ||
       jsIncludes (jsToLower (r.stdout ++ r.stderr)) "merge conflict" ||
       jsIncludes (jsToLower (r.stdout ++ r.stderr)) "automatic merge failed") = false →
      merge r s = .error (if r.stderr = "" then "Merge failed" else r.stderr)) ∧
    (∀ (r : ExecOut) (s : String), r.exitCode ≠ 0 →
      (jsIncludes (jsToLower (r.stdout ++ r.stderr)) "conflict" ||
       jsIncludes (jsToLower (r.stdout ++ r.stderr)) "could not apply" ||
       jsIncludes (jsToLower (r.stdout ++ r.stderr)) "merge conflict") = false →
      rebase r s = .error (if r.stderr = "" then "Rebase failed" else r.stderr)) ∧
    (∀ s : String, extractConflictFiles s =
      ((jsSplit s '\n').filter (fun l =>
          jsTakeStr l 2 == "UU" || jsTakeStr l 2 == "AA" || jsTakeStr l 2 == "DD")).map
        (fun l => jsTrimStr (jsDropStr l 3))) ∧
    merge { stdout := "CONFLICT (content): Merge conflict in x.txt", stderr := "", exitCode := 1 }
        "UU x.txt" =
      .ok { success := false, conflict := some true, conflictFiles := some ["x.txt"] } := by
  refine ⟨?_, ?_, ?_, ?_, ?_, ?_, ?_, by rfl⟩
  · intro r s h; simp [merge, h]
  · intro r s h; simp [rebase, h]
  · intro r s h hph; simp [merge, h, hph]
  · intro r s h hph; simp [rebase, h, hph]
  · intro r s h hph; simp [merge, h, hph]
  · intro r s h hph; simp [rebase, h, hph]
  · intro s
    unfold extractConflictFiles
    congr 1
    apply List.filter_congr
    intro l _
    rw [jsStartsWith_eq_beq l "UU", jsStartsWith_eq_beq l "AA", jsStartsWith_eq_beq l "DD"]
    rfl

/-- C3 witness: the conflict branch of the theorem applied at a concrete
nonzero-exit merge with conflicting output. -/
theorem c3_classification_witness :
    merge { stdout := "oops CONFLICT here", stderr := "", exitCode := 2 } "UU a.c" =
      .ok { success := false, conflict := some true,
            conflictFiles := some (extractConflictFiles "UU a.c") } ∧
    extractConflictFiles "UU a.c" = ["a.c"] :=
  ⟨c3_merge_rebase_classification.2.2.1
      { stdout := "oops CONFLICT here", stderr := "", exitCode := 2 } "UU a.c"
      (by decide) (by decide),
   by rfl⟩

/-! ### C9: SSH key path injection defense -/

/-- Quote escaping is the identity on strings without a single quote. -/
theorem chEscapeQuotes_id (l : List Char) (h : sq ∉ l) : chEscapeQuotes l = l := by
  induction l with
  | nil => rfl
  | cons c rest ih =>
    have hc : c ≠ sq := fun hc => h (hc ▸ List.mem_cons_self c rest)
    have hrest : sq ∉ rest := fun hr => h (List.mem_cons_of_mem c hr)
    simp [chEscapeQuotes] at ih ⊢
    rw [if_neg hc]
    simpa [chEscapeQuotes] using ih hrest

/-- C9: a path containing a denylist character is rejected by a throw
before any command string exists and before any configuration write, with
the config store untouched; the concrete injection path is rejected; and a
path with no denylist character is embedded single-quoted in the generated
core.sshCommand value, which on Unix is exactly ssh space dash i space, the
path in single quotes, then the IdentitiesOnly option. -/
theorem c9_setGitIdentity_denylist :
    (∀ (isW : Bool) (w : ConfigWorld) (u e p : String),
      p.data.any (fun c => c ∈ dangerousChars) = true →
      setGitIdentity isW w u e (some p) =
        (.error ("SSH key path contains invalid characters: " ++ p), w)) ∧
    (∀ (isW : Bool) (w : ConfigWorld) (u e : String),
      setGitIdentity isW w u e (some "; rm -rf /") =
        (.error ("SSH key path contains invalid characters: " ++ "; rm -rf /"), w)) ∧
    (∀ p : String, p.data.any (fun c => c ∈ dangerousChars) = false →
      escapeSshKeyPath false p = .ok (String.mk (sq :: p.data ++ [sq]))) ∧
    (∀ (isW : Bool) (p : String), p.data.any (fun c => c ∈ dangerousChars) = false →
      ∃ inner, escapeSshKeyPath isW p = .ok (String.mk (sq :: inner ++ [sq]))) ∧
    (∀ (w : ConfigWorld) (u e p : String),
      p.data.any (fun c => c ∈ dangerousChars) = false → p ≠ "" →
      setGitIdentity false w u e (some p) =
        (.ok true,
         { w with gitConfig := w.gitConfig ++
             [("user.name", u), ("user.email", e),
              ("core.sshCommand",
               "ssh -i " ++ String.mk (sq :: p.data ++ [sq]) ++ " -o IdentitiesOnly=yes")] })) := by
  have hdanger : ∀ (isW : Bool) (w : ConfigWorld) (u e p : String),
      p.data.any (fun c => c ∈ dangerousChars) = true →
      setGitIdentity isW w u e (some p) =
        (.error ("SSH key path contains invalid characters: " ++ p), w) := by
    intro isW w u e p h
    have hne : p ≠ "" := by
      intro hp
      subst hp
      exact absurd h (by decide)
    simp [setGitIdentity, buildSshCommand, escapeSshKeyPath, hne, h, Except.map]
  have hsafeUnix : ∀ p : String, p.data.any (fun c => c ∈ dangerousChars) = false →
      escapeSshKeyPath false p = .ok (String.mk (sq :: p.data ++ [sq])) := by
    intro p h
    have hnsq : sq ∉ p.data := by
      intro hmem
      rw [List.any_eq_false] at h
      exact h sq hmem (by decide)
    unfold escapeSshKeyPath
    rw [if_neg (by simp [h])]
    simp only [Bool.false_eq_true, if_false]
    rw [chEscapeQuotes_id p.data hnsq]
  refine ⟨hdanger, fun isW w u e => hdanger isW w u e "; rm -rf /" (by decide),
    hsafeUnix, ?_, ?_⟩
  · intro isW p h
    cases isW with
    | false => exact ⟨p.data, hsafeUnix p h⟩
    | true =>
      unfold escapeSshKeyPath
      rw [if_neg (by simp [h])]
      exact ⟨_, rfl⟩
  · intro w u e p h hne
    simp [setGitIdentity, buildSshCommand, hne, hsafeUnix p h, Except.map]

/-- C9 witness: the rejection branch applied at the concrete injection
path, and the safe branch applied at a concrete key path. -/
theorem c9_setGitIdentity_witness :
    ("; rm -rf /").data.any (fun c => c ∈ dangerousChars) = true ∧
    setGitIdentity true { gitConfig := [] } "Ada" "ada@example.com" (some "; rm -rf /") =
      (.error ("SSH key path contains invalid characters: " ++ "; rm -rf /"),
       { gitConfig := [] }) ∧
    setGitIdentity false { gitConfig := [] } "Ada" "ada@example.com" (some "/home/a/key") =
      (.ok true,
       { gitConfig :=
           [("user.name", "Ada"), ("user.email", "ada@example.com"),
            ("core.sshCommand",
             "ssh -i " ++ String.mk (sq :: "/home/a/key".data ++ [sq]) ++
               " -o IdentitiesOnly=yes")] }) :=
  ⟨by decide,
   c9_setGitIdentity_denylist.1 true { gitConfig := [] } "Ada" "ada@example.com"
     "; rm -rf /" (by decide),
   by
    have h := c9_setGitIdentity_denylist.2.2.2.2 { gitConfig := [] } "Ada" "ada@example.com"
      "/home/a/key" (by decide) (by decide)
    simpa using h⟩

/-! ### C4: slug shape -/

/-- Characters of a collapsed list are the replacement character or input
characters outside the collapsed class. -/
theorem collapseAux_mem (p : Char → Bool) (rep : Char) (l : List Char) :
    ∀ (b : Bool) (c : Char), c ∈ collapseAux p rep b l → c = rep ∨ (c ∈ l ∧ p c = false) := by
  induction l with
  | nil => intro b c hc; simp [collapseAux] at hc
  | cons a rest ih =>
    intro b c hc
    by_cases hpa : p a = true
    · cases b with
      | true =>
        simp only [collapseAux, hpa, if_true] at hc
        rcases ih true c hc with h | ⟨h1, h2⟩
        · exact Or.inl h
        · exact Or.inr ⟨List.mem_cons_of_mem a h1, h2⟩
      | false =>
        simp only [collapseAux, hpa, if_true] at hc
        rcases List.mem_cons.mp hc with h | h
        · exact Or.inl h
        · rcases ih true c h with h2 | ⟨h3, h4⟩
          · exact Or.inl h2
          · exact Or.inr ⟨List.mem_cons_of_mem a h3, h4⟩
    · have hpa2 : p a = false := Bool.eq_false_iff.mpr hpa
      simp only [collapseAux, hpa2, Bool.false_eq_true, if_false] at hc
      rcases List.mem_cons.mp hc with h | h
      · exact Or.inr ⟨h ▸ List.mem_cons_self a rest, h ▸ hpa2⟩
      · rcases ih false c h with h2 | ⟨h3, h4⟩
        · exact Or.inl h2
        · exact Or.inr ⟨List.mem_cons_of_mem a h3, h4⟩

/-- Inside a run the next emitted character fails the class test. -/
theorem collapseAux_true_head (p : Char → Bool) (rep : Char) (l : List Char) :
    ∀ c : Char, (collapseAux p rep true l).head? = some c → p c = false := by
  induction l with
  | nil => intro c hc; simp [collapseAux] at hc
  | cons a rest ih =>
    intro c hc
    by_cases hpa : p a = true
    · simp only [collapseAux, hpa, if_true] at hc
      exact ih c hc
    · have hpa2 : p a = false := Bool.eq_false_iff.mpr hpa
      simp only [collapseAux, hpa2, Bool.false_eq_true, if_false, List.head?_cons,
        Option.some.injEq] at hc
      exact hc ▸ hpa2

/-- Cons of a non-hyphen preserves the double-hyphen freedom. -/
theorem nd_cons_of_ne (a : Char) (t : List Char) (ha : (a == '-') = false)
    (ht : noDoubleDash t = true) : noDoubleDash (a :: t) = true := by
  cases t with
  | nil => rfl
  | cons b r => simp [noDoubleDash, ha, ht]

/-- Tail of a double-hyphen-free list is double-hyphen free. -/
theorem nd_tail (a : Char) (t : List Char) (h : noDoubleDash (a :: t) = true) :
    noDoubleDash t = true := by
  cases t with
  | nil => rfl
  | cons b r =>
    simp only [noDoubleDash, Bool.and_eq_true] at h
    exact h.2

/-- Left part of an append is double-hyphen free when the whole is. -/
theorem nd_append_left : ∀ (l t : List Char), noDoubleDash (l ++ t) = true →
    noDoubleDash l = true
  | [], _, _ => rfl
  | [_], _, _ => rfl
  | a :: b :: rest, t, h => by
    simp only [List.cons_append, noDoubleDash, Bool.and_eq_true] at h ⊢
    exact ⟨h.1, nd_append_left (b :: rest) t (by simpa using h.2)⟩

/-- Right part of an append is double-hyphen free when the whole is. -/
theorem nd_append_right : ∀ (l t : List Char), noDoubleDash (l ++ t) = true →
    noDoubleDash t = true
  | [], _, h => h
  | a :: rest, t, h => nd_append_right rest t (nd_tail a (rest ++ t) h)

/-- Collapsing hyphen runs leaves no two adjacent hyphens, both from the
outside of a run and from just after an emitted replacement hyphen. -/
theorem collapse_dash_nd (l : List Char) :
    noDoubleDash (collapseAux isDash '-' false l) = true ∧
    noDoubleDash ('-' :: collapseAux isDash '-' true l) = true := by
  induction l with
  | nil => exact ⟨rfl, rfl⟩
  | cons a rest ih =>
    by_cases hpa : isDash a = true
    · constructor
      · simp only [collapseAux, hpa, if_true]
        exact ih.2
      · simp only [collapseAux, hpa, if_true]
        exact ih.2
    · have hpa2 : isDash a = false := Bool.eq_false_iff.mpr hpa
      constructor
      · simp only [collapseAux, hpa2, Bool.false_eq_true, if_false]
        exact nd_cons_of_ne a _ (by simpa [isDash] using hpa2) ih.1
      · simp only [collapseAux, hpa2, Bool.false_eq_true, if_false, noDoubleDash]
        rw [Bool.and_eq_true]
        have ha2 : (a == '-') = false := by simpa [isDash] using hpa2
        exact ⟨by simp [ha2], nd_cons_of_ne a _ ha2 ih.1⟩

/-- Dropping a trailing run keeps a front part of the list. -/
theorem chDropTrailing_front (p : Char → Bool) : ∀ l : List Char,
    ∃ t, chDropTrailing p l ++ t = l
  | [] => ⟨[], rfl⟩
  | c :: rest => by
    rcases chDropTrailing_front p rest with ⟨t, ht⟩
    by_cases hg : ((chDropTrailing p rest).isEmpty && p c) = true
    · refine ⟨c :: rest, ?_⟩
      simp only [chDropTrailing, hg, if_true]
      rfl
    · have hg2 := Bool.eq_false_iff.mpr hg
      refine ⟨t, ?_⟩
      simp only [chDropTrailing, hg2, Bool.false_eq_true, if_false, List.cons_append, ht]

/-- Drop of a trailing run is empty or keeps the head. -/
theorem chDropTrailing_head (p : Char → Bool) (c : Char) (rest : List Char) :
    chDropTrailing p (c :: rest) = [] ∨
    ∃ t, chDropTrailing p (c :: rest) = c :: t := by
  by_cases hg : ((chDropTrailing p rest).isEmpty && p c) = true
  · left; simp only [chDropTrailing, hg, if_true]
  · right
    have hg2 := Bool.eq_false_iff.mpr hg
    exact ⟨chDropTrailing p rest, by simp only [chDropTrailing, hg2, Bool.false_eq_true, if_false]⟩

/-- Last character after dropping a trailing run fails the class test. -/
theorem chDropTrailing_last (p : Char → Bool) : ∀ (l : List Char) (c : Char),
    (chDropTrailing p l).getLast? = some c → p c = false := by
  intro l
  induction l with
  | nil => intro c hc; simp [chDropTrailing] at hc
  | cons a rest ih =>
    intro c hc
    by_cases hg : ((chDropTrailing p rest).isEmpty && p a) = true
    · simp only [chDropTrailing, hg, if_true] at hc
      simp at hc
    · have hg2 := Bool.eq_false_iff.mpr hg
      simp only [chDropTrailing, hg2, Bool.false_eq_true, if_false] at hc
      cases hrest : chDropTrailing p rest with
      | nil =>
        rw [hrest] at hc
        simp only [List.getLast?_singleton, Option.some.injEq] at hc
        subst hc
        rcases Bool.and_eq_false_iff.mp hg2 with h | h
        · rw [hrest] at h; simp at h
        · exact h
      | cons x xs =>
        rw [hrest] at hc
        rw [List.getLast?_cons_cons] at hc
        exact ih c (hrest ▸ hc)

/-- Head after dropping a leading hyphen run is not a hyphen. -/
theorem dropWhile_dash_head : ∀ (l : List Char) (c : Char),
    (l.dropWhile isDash).head? = some c → c ≠ '-' := by
  intro l
  induction l with
  | nil => intro c hc; simp at hc
  | cons a rest ih =>
    intro c hc
    by_cases ha : a = '-'
    · rw [List.dropWhile_cons_of_pos (by simp [isDash, ha])] at hc
      exact ih c hc
    · rw [List.dropWhile_cons_of_neg (by simp [isDash, ha])] at hc
      simp only [List.head?_cons, Option.some.injEq] at hc
      exact hc ▸ ha

/-- Membership in a take is membership in the list. -/
theorem mem_take_mem (l : List Char) (n : Nat) (c : Char) (h : c ∈ l.take n) : c ∈ l := by
  rw [← List.take_append_drop n l]
  exact List.mem_append_left _ h

/-- Head of a take is the head of the list. -/
theorem take_head (l : List Char) (n : Nat) (c : Char) (h : (l.take n).head? = some c) :
    l.head? = some c := by
  cases l with
  | nil => simp at h
  | cons a rest =>
    cases n with
    | zero => simp at h
    | succ m => simpa using h

/-- C4 counterexample: a 79-character stem followed by hyphen and one more
character survives every rewrite step unchanged, and the final slice at 80
cuts directly after the hyphen, so the slug output ends in a hyphen. -/
theorem c4_counterexample :
    slugWorktreeName (String.mk (List.replicate 79 'a') ++ "-b") =
      String.mk (List.replicate 79 'a' ++ ['-']) ∧
    ((slugWorktreeName (String.mk (List.replicate 79 'a') ++ "-b")).data.getLast? ==
      some '-') = true := by
  refine ⟨by decide, by decide⟩

/-- C4 (amended): every slug is at most 80 characters over the allowed
class A-Z a-z 0-9 dot underscore hyphen, has no two adjacent hyphens and
no leading hyphen; the uncapped pipeline result additionally has no
trailing hyphen, and the slug is exactly its 80-character cap, so a
trailing hyphen can arise only from the final truncation. -/
theorem c4_slugWorktreeName_shape (s : String) :
    (slugWorktreeName s).length ≤ 80 ∧
    (slugWorktreeName s).data.all allowedSlugChar = true ∧
    noDoubleDash (slugWorktreeName s).data = true ∧
    ((slugWorktreeName s).data.head? == some '-') = false ∧
    ((slugWorktreeNameNoCap s).getLast? == some '-') = false ∧
    slugWorktreeName s = String.mk ((slugWorktreeNameNoCap s).take 80) := by
  have hLshape : slugWorktreeNameNoCap s =
      chDropTrailing isDash
        ((collapseRuns isDash '-'
          (collapseRuns (fun c => !allowedSlugChar c) '-' (slugPreSteps s))).dropWhile isDash) :=
    rfl
  set M := collapseRuns (fun c => !allowedSlugChar c) '-' (slugPreSteps s) with hM
  have hall : ∀ c ∈ slugWorktreeNameNoCap s, allowedSlugChar c = true := by
    intro c hc
    rw [hLshape] at hc
    rcases chDropTrailing_front isDash ((collapseRuns isDash '-' M).dropWhile isDash) with ⟨t, ht⟩
    have hc2 : c ∈ (collapseRuns isDash '-' M).dropWhile isDash := by
      rw [← ht]; exact List.mem_append_left t hc
    have hc3 : c ∈ collapseRuns isDash '-' M := by
      rw [← List.takeWhile_append_dropWhile (p := isDash) (l := collapseRuns isDash '-' M)]
      exact List.mem_append_right _ hc2
    rcases collapseAux_mem isDash '-' M false c hc3 with h | ⟨h1, _⟩
    · subst h; decide
    · rcases collapseAux_mem (fun c => !allowedSlugChar c) '-' (slugPreSteps s) false c h1 with
        h | ⟨_, h4⟩
      · subst h; decide
      · simpa using h4
  have hndL : noDoubleDash (slugWorktreeNameNoCap s) = true := by
    have hnd7 := (collapse_dash_nd M).1
    have hnddw : noDoubleDash ((collapseRuns isDash '-' M).dropWhile isDash) = true := by
      refine nd_append_right ((collapseRuns isDash '-' M).takeWhile isDash) _ ?_
      rw [List.takeWhile_append_dropWhile]
      exact hnd7
    rw [hLshape]
    rcases chDropTrailing_front isDash ((collapseRuns isDash '-' M).dropWhile isDash) with ⟨t, ht⟩
    refine nd_append_left _ t ?_
    rw [ht]
    exact hnddw
  have hhead : ∀ c : Char, (slugWorktreeNameNoCap s).head? = some c → c ≠ '-' := by
    intro c hc
    rw [hLshape] at hc
    cases hdw : (collapseRuns isDash '-' M).dropWhile isDash with
    | nil => rw [hdw] at hc; simp [chDropTrailing] at hc
    | cons a rest =>
      rw [hdw] at hc
      rcases chDropTrailing_head isDash a rest with h | ⟨t, h⟩
      · rw [h] at hc; simp at hc
      · rw [h] at hc
        simp only [List.head?_cons, Option.some.injEq] at hc
        have ha : ((collapseRuns isDash '-' M).dropWhile isDash).head? = some a := by
          rw [hdw]; rfl
        exact hc ▸ dropWhile_dash_head (collapseRuns isDash '-' M) a ha
  have hlast : ∀ c : Char, (slugWorktreeNameNoCap s).getLast? = some c → c ≠ '-' := by
    intro c hc
    rw [hLshape] at hc
    have := chDropTrailing_last isDash _ c hc
    simpa [isDash] using this
  refine ⟨?_, ?_, ?_, ?_, ?_, rfl⟩
  · show ((slugWorktreeNameNoCap s).take 80).length ≤ 80
    rw [List.length_take]
    exact min_le_left _ _
  · rw [List.all_eq_true]
    intro c hc
    exact hall c (mem_take_mem _ 80 c hc)
  · show noDoubleDash ((slugWorktreeNameNoCap s).take 80) = true
    refine nd_append_left _ ((slugWorktreeNameNoCap s).drop 80) ?_
    rw [List.take_append_drop]
    exact hndL
  · rw [beq_eq_false_iff_ne]
    intro h
    exact hhead '-' (take_head _ 80 '-' h) rfl
  · rw [beq_eq_false_iff_ne]
    intro h
    exact hlast '-' h rfl

/-! ### C5: remote branch reference parsing -/

/-- Index search misses exactly the absent characters. -/
theorem chIndexOf_eq_none (c : Char) (l : List Char) (h : c ∉ l) : chIndexOf c l = none := by
  induction l with
  | nil => rfl
  | cons a rest ih =>
    have ha : ¬(a = c) := fun he => h (he ▸ List.mem_cons_self a rest)
    have hrest : c ∉ rest := fun hm => h (List.mem_cons_of_mem a hm)
    simp only [chIndexOf, if_neg ha, ih hrest]

/-- Index of the first occurrence after a clean front part. -/
theorem chIndexOf_append (c : Char) (l₁ l₂ : List Char) (h : c ∉ l₁) :
    chIndexOf c (l₁ ++ c :: l₂) = some l₁.length := by
  induction l₁ with
  | nil => simp [chIndexOf]
  | cons a rest ih =>
    have ha : ¬(a = c) := fun he => h (he ▸ List.mem_cons_self a rest)
    have hrest : c ∉ rest := fun hm => h (List.mem_cons_of_mem a hm)
    simp only [List.cons_append, chIndexOf, if_neg ha, List.append_eq, ih hrest,
      List.length_cons]

/-- Starting with a literal needs at least the literal length. -/
theorem chStartsWith_le_length (l pre : List Char) (h : chStartsWith l pre = true) :
    pre.length ≤ l.length := by
  have htake := (chStartsWith_iff l pre).mp h
  have hlen := congrArg List.length htake
  rw [List.length_take] at hlen
  rcases Nat.le_total pre.length l.length with h2 | h2
  · exact h2
  · rw [Nat.min_eq_right h2] at hlen
    omega

/-- Every character of a matched literal occurs in the list. -/
theorem chStartsWith_mem (l pre : List Char) (h : chStartsWith l pre = true) (c : Char)
    (hc : c ∈ pre) : c ∈ l := by
  have htake := (chStartsWith_iff l pre).mp h
  have hmem : c ∈ l.take pre.length := by rw [htake]; exact hc
  exact mem_take_mem l pre.length c hmem

/-- A literal shorter than the front part matches the append exactly when
it matches the front part. -/
theorem chStartsWith_append_le (l₁ l₂ pre : List Char) (h : pre.length ≤ l₁.length)
    (hsw : chStartsWith (l₁ ++ l₂) pre = true) : chStartsWith l₁ pre = true := by
  rw [chStartsWith_iff] at hsw ⊢
  rw [List.take_append_eq_append_take, Nat.sub_eq_zero_of_le h] at hsw
  simpa using hsw

/-- Reduction of the splitter once the slash index is known. -/
theorem splitRemoteRest_eq (rest : List Char) (i : Nat) (hidx : chIndexOf '/' rest = some i) :
    splitRemoteRest rest =
      if i = 0 ∨ i = rest.length - 1 then none
      else some { remote := String.mk (rest.take i), branch := String.mk (rest.drop (i + 1)),
                  remoteRef := String.mk rest,
                  fullRef := String.mk (refsRemotesPre ++ rest) } := by
  unfold splitRemoteRest
  rw [hidx]

/-- Reduction of the splitter when no slash occurs. -/
theorem splitRemoteRest_none (rest : List Char) (h : chIndexOf '/' rest = none) :
    splitRemoteRest rest = none := by
  unfold splitRemoteRest
  rw [h]

/-- Splitting a remote slash body with a clean remote part and nonempty
branch part succeeds with the expected fields. -/
theorem splitRemoteRest_pos (r b : String) (hr : r.data ≠ []) (hb : b.data ≠ [])
    (hslash : '/' ∉ r.data) :
    splitRemoteRest (r.data ++ '/' :: b.data) =
      some { remote := r, branch := b, remoteRef := r ++ "/" ++ b,
             fullRef := "refs/remotes/" ++ (r ++ "/" ++ b) } := by
  have hdata : (r ++ "/" ++ b).data = r.data ++ '/' :: b.data := by
    simp [String.data_append]
  rw [splitRemoteRest_eq _ r.data.length (chIndexOf_append '/' r.data b.data hslash)]
  have hcond : ¬(r.data.length = 0 ∨
      r.data.length = (r.data ++ '/' :: b.data).length - 1) := by
    simp only [List.length_append, List.length_cons]
    have h1 : r.data.length ≠ 0 := by
      intro h; exact hr (List.eq_nil_of_length_eq_zero h)
    have h2 : b.data.length ≠ 0 := by
      intro h; exact hb (List.eq_nil_of_length_eq_zero h)
    omega
  rw [if_neg hcond]
  have h1 : (r.data ++ '/' :: b.data).take r.data.length = r.data :=
    List.take_left r.data ('/' :: b.data)
  have h2 : (r.data ++ '/' :: b.data).drop (r.data.length + 1) = b.data := by
    have hsplit : r.data ++ '/' :: b.data = (r.data ++ ['/']) ++ b.data := by simp
    rw [hsplit]
    exact List.drop_left' (by simp)
  have hfull : ("refs/remotes/" ++ (r ++ "/" ++ b)).data =
      refsRemotesPre ++ (r.data ++ '/' :: b.data) := by
    simp [String.data_append, refsRemotesPre, hdata]
  rw [h1, h2, (congrArg String.mk hdata).symm, (congrArg String.mk hfull).symm]

/-- C5: well-formed remote slash branch strings parse by splitting at the
first slash, with the refs/remotes/ and remotes/ prefixes canonicalized
away; strings with no slash, a leading first slash, or the first slash as
the last character parse to none; and the concrete example parses to
origin with branch feature/x. -/
theorem c5_parseRemoteBranchRef_spec :
    (∀ r b : String, r.data ≠ [] → b.data ≠ [] → '/' ∉ r.data →
      jsTrim (r ++ "/" ++ b).data = (r ++ "/" ++ b).data →
      chStartsWith (r ++ "/" ++ b).data refsRemotesPre = false →
      chStartsWith (r ++ "/" ++ b).data remotesPre = false →
      parseRemoteBranchRef (r ++ "/" ++ b) =
        some { remote := r, branch := b, remoteRef := r ++ "/" ++ b,
               fullRef := "refs/remotes/" ++ (r ++ "/" ++ b) }) ∧
    (∀ r b : String, r.data ≠ [] → b.data ≠ [] → '/' ∉ r.data →
      jsTrim ("refs/remotes/" ++ r ++ "/" ++ b).data =
        ("refs/remotes/" ++ r ++ "/" ++ b).data →
      parseRemoteBranchRef ("refs/remotes/" ++ r ++ "/" ++ b) =
        some { remote := r, branch := b, remoteRef := r ++ "/" ++ b,
               fullRef := "refs/remotes/" ++ (r ++ "/" ++ b) }) ∧
    (∀ r b : String, r.data ≠ [] → b.data ≠ [] → '/' ∉ r.data →
      jsTrim ("remotes/" ++ r ++ "/" ++ b).data = ("remotes/" ++ r ++ "/" ++ b).data →
      parseRemoteBranchRef ("remotes/" ++ r ++ "/" ++ b) =
        some { remote := r, branch := b, remoteRef := r ++ "/" ++ b,
               fullRef := "refs/remotes/" ++ (r ++ "/" ++ b) }) ∧
    (∀ s : String, jsTrim s.data = s.data → '/' ∉ s.data →
      parseRemoteBranchRef s = none) ∧
    (∀ s : String, jsTrim s.data = s.data → s.data.head? = some '/' →
      parseRemoteBranchRef s = none) ∧
    (∀ x : String, jsTrim (x ++ "/").data = (x ++ "/").data → '/' ∉ x.data →
      x.data ≠ [] → parseRemoteBranchRef (x ++ "/") = none) ∧
    parseRemoteBranchRef "origin/feature/x" =
      some { remote := "origin", branch := "feature/x", remoteRef := "origin/feature/x",
             fullRef := "refs/remotes/origin/feature/x" } := by
  have hdata3 : ∀ r b : String, (r ++ "/" ++ b).data = r.data ++ '/' :: b.data := by
    intro r b
    simp [String.data_append]
  refine ⟨?_, ?_, ?_, ?_, ?_, ?_, by decide⟩
  · intro r b hr hb hslash htrim hpre1 hpre2
    have hpre1b : chStartsWith (r.data ++ '/' :: b.data) refsRemotesPre = false := by
      rw [← hdata3 r b]; exact hpre1
    have hpre2b : chStartsWith (r.data ++ '/' :: b.data) remotesPre = false := by
      rw [← hdata3 r b]; exact hpre2
    simp only [parseRemoteBranchRef]
    rw [htrim, hdata3 r b]
    have hne : ¬((r.data ++ '/' :: b.data).isEmpty = true) := by
      cases hrd : r.data with
      | nil => exact absurd hrd hr
      | cons a t => simp
    rw [if_neg hne, if_neg (by simp [hpre1b]), if_neg (by simp [hpre2b])]
    exact splitRemoteRest_pos r b hr hb hslash
  · intro r b hr hb hslash htrim
    simp only [parseRemoteBranchRef]
    rw [htrim]
    have hdataw : ("refs/remotes/" ++ r ++ "/" ++ b).data =
        refsRemotesPre ++ (r.data ++ '/' :: b.data) := by
      simp [String.data_append, refsRemotesPre]
    rw [hdataw]
    have hne : ¬((refsRemotesPre ++ (r.data ++ '/' :: b.data)).isEmpty = true) := by
      intro h
      exact Bool.false_ne_true ((rfl : (refsRemotesPre ++ (r.data ++ '/' :: b.data)).isEmpty = false).symm.trans h)
    have hsw : chStartsWith (refsRemotesPre ++ (r.data ++ '/' :: b.data)) refsRemotesPre
        = true := by
      rw [chStartsWith_iff]
      exact List.take_left refsRemotesPre _
    rw [if_neg hne, if_pos hsw]
    rw [List.drop_left refsRemotesPre]
    exact splitRemoteRest_pos r b hr hb hslash
  · intro r b hr hb hslash htrim
    simp only [parseRemoteBranchRef]
    rw [htrim]
    have hdataw : ("remotes/" ++ r ++ "/" ++ b).data =
        remotesPre ++ (r.data ++ '/' :: b.data) := by
      simp [String.data_append, remotesPre]
    rw [hdataw]
    have hne : ¬((remotesPre ++ (r.data ++ '/' :: b.data)).isEmpty = true) := by
      intro h
      exact Bool.false_ne_true ((rfl : (remotesPre ++ (r.data ++ '/' :: b.data)).isEmpty = false).symm.trans h)
    have hpre1 : ¬(chStartsWith (remotesPre ++ (r.data ++ '/' :: b.data)) refsRemotesPre
        = true) := by
      intro h
      have hfalse : chStartsWith (remotesPre ++ (r.data ++ '/' :: b.data)) refsRemotesPre
          = false := rfl
      exact Bool.false_ne_true (hfalse.symm.trans h)
    have hsw : chStartsWith (remotesPre ++ (r.data ++ '/' :: b.data)) remotesPre = true := by
      rw [chStartsWith_iff]
      exact List.take_left remotesPre _
    rw [if_neg hne, if_neg hpre1, if_pos hsw]
    rw [List.drop_left remotesPre]
    exact splitRemoteRest_pos r b hr hb hslash
  · intro s htrim hslash
    simp only [parseRemoteBranchRef]
    rw [htrim]
    cases he : s.data.isEmpty with
    | true => simp
    | false =>
      have hpre : ∀ pre : List Char, '/' ∈ pre →
          ¬(chStartsWith s.data pre = true) := by
        intro pre hmem h
        exact hslash (chStartsWith_mem _ _ h '/' hmem)
      rw [if_neg (by simp), if_neg (hpre _ (by decide)), if_neg (hpre _ (by decide))]
      exact splitRemoteRest_none s.data (chIndexOf_eq_none '/' s.data hslash)
  · intro s htrim hhead
    cases hsd : s.data with
    | nil => rw [hsd] at hhead; simp at hhead
    | cons a t =>
      rw [hsd] at hhead
      simp only [List.head?_cons, Option.some.injEq] at hhead
      subst hhead
      simp only [parseRemoteBranchRef]
      rw [htrim, hsd]
      have hne : ¬((('/' : Char) :: t).isEmpty = true) := by simp
      have hpre1 : ¬(chStartsWith ('/' :: t) refsRemotesPre = true) := by
        intro h
        exact Bool.false_ne_true ((rfl : chStartsWith ('/' :: t) refsRemotesPre = false).symm.trans h)
      have hpre2 : ¬(chStartsWith ('/' :: t) remotesPre = true) := by
        intro h
        exact Bool.false_ne_true ((rfl : chStartsWith ('/' :: t) remotesPre = false).symm.trans h)
      rw [if_neg hne, if_neg hpre1, if_neg hpre2]
      rw [splitRemoteRest_eq ('/' :: t) 0 rfl]
      rw [if_pos (Or.inl rfl)]
  · intro x htrim hslash hx
    by_cases hxr : x.data = "remotes".data
    · have hxeq : x = "remotes" := by
        have := congrArg String.mk hxr
        simpa using this
      rw [hxeq]
      decide
    · have hxdata : (x ++ "/").data = x.data ++ ['/'] := by simp [String.data_append]
      simp only [parseRemoteBranchRef]
      rw [htrim, hxdata]
      have hne : ¬((x.data ++ ['/']).isEmpty = true) := by
        cases hxd : x.data with
        | nil => exact absurd hxd hx
        | cons a t => simp
      have hpre1 : ¬(chStartsWith (x.data ++ ['/']) refsRemotesPre = true) := by
        intro hsw
        have hlen := chStartsWith_le_length _ _ hsw
        by_cases h13 : refsRemotesPre.length ≤ x.data.length
        · have hswx := chStartsWith_append_le x.data ['/'] refsRemotesPre h13 hsw
          exact hslash (chStartsWith_mem _ _ hswx '/' (by decide))
        · have hlen13 : (x.data ++ ['/']).length = refsRemotesPre.length := by
            simp only [List.length_append, List.length_cons, List.length_nil] at hlen ⊢
            have h13v : refsRemotesPre.length = 13 := by decide
            rw [h13v] at hlen h13 ⊢
            omega
          have htk := (chStartsWith_iff _ _).mp hsw
          rw [← hlen13, List.take_length] at htk
          have hxeq2 : x.data = "refs/remotes".data := by
            have hd := congrArg List.dropLast htk
            rw [List.dropLast_concat] at hd
            exact hd.trans (by decide)
          exact hslash (by rw [hxeq2]; decide)
      have hpre2 : ¬(chStartsWith (x.data ++ ['/']) remotesPre = true) := by
        intro hsw
        have hlen := chStartsWith_le_length _ _ hsw
        by_cases h8 : remotesPre.length ≤ x.data.length
        · have hswx := chStartsWith_append_le x.data ['/'] remotesPre h8 hsw
          exact hslash (chStartsWith_mem _ _ hswx '/' (by decide))
        · have hlen8 : (x.data ++ ['/']).length = remotesPre.length := by
            simp only [List.length_append, List.length_cons, List.length_nil] at hlen ⊢
            have h8v : remotesPre.length = 8 := by decide
            rw [h8v] at hlen h8 ⊢
            omega
          have htk := (chStartsWith_iff _ _).mp hsw
          rw [← hlen8, List.take_length] at htk
          have hxeq2 : x.data = "remotes".data := by
            have hd := congrArg List.dropLast htk
            rw [List.dropLast_concat] at hd
            exact hd.trans (by decide)
          exact hxr hxeq2
      rw [if_neg hne, if_neg hpre1, if_neg hpre2]
      rw [splitRemoteRest_eq (x.data ++ ['/']) x.data.length
        (chIndexOf_append '/' x.data [] hslash)]
      rw [if_pos (Or.inr (by simp))]

/-- C5 witness: the parsing theorem applied at concrete inputs of each
class. -/
theorem c5_parseRemoteBranchRef_witness :
    parseRemoteBranchRef ("origin" ++ "/" ++ "main") =
      some { remote := "origin", branch := "main", remoteRef := "origin" ++ "/" ++ "main",
             fullRef := "refs/remotes/" ++ ("origin" ++ "/" ++ "main") } ∧
    parseRemoteBranchRef "nomatch" = none ∧
    parseRemoteBranchRef "/lead" = none ∧
    parseRemoteBranchRef ("trail" ++ "/") = none :=
  ⟨c5_parseRemoteBranchRef_spec.1 "origin" "main" (by decide) (by decide) (by decide)
     (by decide) (by decide) (by decide),
   c5_parseRemoteBranchRef_spec.2.2.2.1 "nomatch" (by decide) (by decide),
   c5_parseRemoteBranchRef_spec.2.2.2.2.1 "/lead" (by decide) (by decide),
   c5_parseRemoteBranchRef_spec.2.2.2.2.2.1 "trail" (by decide) (by decide) (by decide)⟩

/-! ### Shared lemmas for the worktree lifecycle claims -/

/-- Head after a dropWhile fails the predicate. -/
theorem dropWhile_head_not (p : Char → Bool) : ∀ (l : List Char) (c : Char),
    (l.dropWhile p).head? = some c → p c = false := by
  intro l
  induction l with
  | nil => intro c hc; simp at hc
  | cons a rest ih =>
    intro c hc
    by_cases ha : p a = true
    · rw [List.dropWhile_cons_of_pos ha] at hc
      exact ih c hc
    · have ha2 := Bool.eq_false_iff.mpr ha
      rw [List.dropWhile_cons_of_neg (by simp [ha2])] at hc
      simp only [List.head?_cons, Option.some.injEq] at hc
      exact hc ▸ ha2

/-- A list whose head fails the predicate is untouched by dropWhile. -/
theorem dropWhile_eq_self_of_head (p : Char → Bool) (l : List Char)
    (h : ∀ c : Char, l.head? = some c → p c = false) : l.dropWhile p = l := by
  cases l with
  | nil => rfl
  | cons a rest =>
    rw [List.dropWhile_cons_of_neg (by simp [h a rfl])]

/-- A list whose last element fails the predicate is untouched by the
trailing drop. -/
theorem chDropTrailing_eq_self (p : Char → Bool) : ∀ l : List Char,
    (∀ c : Char, l.getLast? = some c → p c = false) → chDropTrailing p l = l := by
  intro l
  induction l with
  | nil => intro _; rfl
  | cons a rest ih =>
    intro h
    cases hrest : rest with
    | nil =>
      have ha := h a (by rw [hrest]; rfl)
      simp only [chDropTrailing, hrest]
      simp [ha, chDropTrailing]
    | cons x xs =>
      have hr : chDropTrailing p rest = rest := by
        apply ih
        intro c hc
        apply h c
        rw [hrest] at hc ⊢
        rw [List.getLast?_cons_cons]
        exact hc
      rw [hrest] at hr
      show (if (chDropTrailing p (x :: xs)).isEmpty && p a then []
            else a :: chDropTrailing p (x :: xs)) = a :: x :: xs
      rw [hr]
      simp

/-- Trimming is idempotent. -/
theorem jsTrim_idem (l : List Char) : jsTrim (jsTrim l) = jsTrim l := by
  unfold jsTrim
  set X := l.dropWhile isJsSpace with hX
  have hhead : ∀ c : Char, (chDropTrailing isJsSpace X).head? = some c →
      isJsSpace c = false := by
    intro c hc
    cases hXc : X with
    | nil =>
      rw [hXc] at hc
      simp [chDropTrailing] at hc
    | cons a rest =>
      rw [hXc] at hc
      rcases chDropTrailing_head isJsSpace a rest with h | ⟨t, h⟩
      · rw [h] at hc; simp at hc
      · rw [h] at hc
        simp only [List.head?_cons, Option.some.injEq] at hc
        subst hc
        apply dropWhile_head_not isJsSpace l
        rw [← hX, hXc]
        rfl
  rw [dropWhile_eq_self_of_head isJsSpace _ hhead]
  exact chDropTrailing_eq_self isJsSpace _ (fun c hc => chDropTrailing_last isJsSpace X c hc)

/-- String-level trim idempotence. -/
theorem jsTrimStr_idem (s : String) : jsTrimStr (jsTrimStr s) = jsTrimStr s :=
  congrArg String.mk (jsTrim_idem s.data)

/-- Membership after de-duplication implies membership before. -/
theorem mem_dedupAux : ∀ (seen l : List String) (x : String), x ∈ dedupAux seen l → x ∈ l := by
  intro seen l
  induction l generalizing seen with
  | nil => intro x hx; simp [dedupAux] at hx
  | cons a rest ih =>
    intro x hx
    by_cases ha : seen.contains a = true
    · simp only [dedupAux, ha, if_true] at hx
      exact List.mem_cons_of_mem a (ih seen x hx)
    · have ha2 := Bool.eq_false_iff.mpr ha
      simp only [dedupAux, ha2, Bool.false_eq_true, if_false] at hx
      rcases List.mem_cons.mp hx with h | h
      · exact h ▸ List.mem_cons_self a rest
      · exact List.mem_cons_of_mem a (ih (a :: seen) x h)

/-- Members of the normalized sandboxes list are nonempty trims of the
stored entries. -/
theorem mem_sandboxNorm (l : List String) (x : String) (hx : x ∈ sandboxNorm l) :
    (∃ y ∈ l, x = jsTrimStr y) ∧ x ≠ "" := by
  unfold sandboxNorm at hx
  rcases List.mem_filter.mp hx with ⟨hmem, hne⟩
  rcases List.mem_map.mp hmem with ⟨y, hy, hxy⟩
  refine ⟨⟨y, hy, hxy.symm⟩, ?_⟩
  simpa using hne

/-- A removal target never survives the sandbox removal update aimed at
it. -/
theorem sandboxRemove_not_mem (base : List String) (target : String) :
    target ∉ dedupAux [] (sandboxNorm ((sandboxNorm base).filter (fun e => e ≠ target))) := by
  intro hmem
  have h1 := mem_dedupAux [] _ target hmem
  rcases mem_sandboxNorm _ _ h1 with ⟨⟨y, hy, hxy⟩, _⟩
  rcases List.mem_filter.mp hy with ⟨hy2, hyne⟩
  rcases mem_sandboxNorm base y hy2 with ⟨⟨z, _, hyz⟩, _⟩
  have hytrim : jsTrimStr y = y := by rw [hyz]; exact jsTrimStr_idem z
  have : target = y := by rw [hxy, hytrim]
  rw [this] at hyne
  simp at hyne

/-- Observable state after ensureOpenCodeProjectId: unchanged, or the
first-call case that caches the marker, whose only effects are the marker
directory entry and the marker content. -/
theorem ensureId_state (w : WtWorld) (p : String) :
    (ensureOpenCodeProjectId w p).2 = w ∨
    (jsTrimStr (w.idFile.getD "") = "" ∧
     ∃ pid : String, (ensureOpenCodeProjectId w p).2 =
       { w with dirs := if w.dirs.contains (p ++ "/.git") then w.dirs
                        else (p ++ "/.git") :: w.dirs,
                idFile := some pid }) := by
  unfold ensureOpenCodeProjectId
  simp only []
  by_cases hid : jsTrimStr (w.idFile.getD "") = ""
  · rw [if_neg (by simp [hid])]
    cases hroots : w.revListRoots with
    | none => left; rfl
    | some out =>
      simp only []
      by_cases hpid : (sortStrings (((jsSplit out '\n').map jsTrimStr).filter
          (fun s => s ≠ ""))).headD "" = ""
      · rw [if_pos hpid]
        left; rfl
      · rw [if_neg hpid]
        right
        exact ⟨hid, _, rfl⟩
  · rw [if_pos hid]
    left; rfl

/-- Observable state after resolveWorktreeProjectContext: unchanged, or
the marker-caching transition. -/
theorem resolveCtx_state (w : WtWorld) (dir : String) :
    (resolveWorktreeProjectContext w dir).2 = w ∨
    (jsTrimStr (w.idFile.getD "") = "" ∧
     ∃ (pid g : String), (resolveWorktreeProjectContext w dir).2 =
       { w with dirs := if w.dirs.contains g then w.dirs else g :: w.dirs,
                idFile := some pid }) := by
  unfold resolveWorktreeProjectContext
  simp only []
  by_cases h1 : normalizeDirectoryPath w.homedir dir = ""
  · rw [if_pos h1]; left; rfl
  · rw [if_neg h1]
    cases htl : w.topLevel with
    | none => left; rfl
    | some t =>
      simp only []
      cases hcd : w.commonDir with
      | none => left; rfl
      | some c =>
        simp only []
        rcases he : ensureOpenCodeProjectId w (jsDirname c) with ⟨r, w1⟩
        have hstate := ensureId_state w (jsDirname c)
        rw [he, htl, hcd] at hstate
        rcases hstate with hsame | ⟨hid, pid, heq⟩
        · left
          cases r <;> simpa using hsame
        · right
          refine ⟨hid, pid, jsDirname c ++ "/.git", ?_⟩
          cases r <;> simpa using heq

/-- Full reduction of context resolution with a cached nonempty project
marker: the world is untouched. -/
theorem resolveCtx_cached (w : WtWorld) (dir : String) (t c pid : String)
    (hdir : normalizeDirectoryPath w.homedir dir ≠ "")
    (ht : w.topLevel = some t) (hc : w.commonDir = some c)
    (hid : w.idFile = some pid) (hpt : jsTrimStr pid ≠ "") :
    resolveWorktreeProjectContext w dir =
      (.ok { projectID := jsTrimStr pid, sandbox := t, primaryWorktree := jsDirname c,
             worktreeRoot := w.openCodeDataPath ++ "/worktree/" ++ jsTrimStr pid }, w) := by
  unfold resolveWorktreeProjectContext ensureOpenCodeProjectId
  simp only []
  rw [if_neg hdir, ht]
  simp only []
  rw [hc]
  simp only []
  rw [hid]
  simp only [Option.getD_some]
  rw [if_pos hpt]

/-! ### C7: primary worktree removal is refused -/

/-- C7: when the removal target canonicalizes to the primary worktree the
call fails with the fixed message Cannot remove the primary workspace, for
every payload (in particular regardless of deleteLocalBranch), and the
world is returned untouched: no worktree, directory, branch, or metadata
entry is removed. -/
theorem c7_removeWorktree_primary (w : WtWorld) (dir : String)
    (input : RemoveGitWorktreePayload) (t c pid : String)
    (hdir : normalizeDirectoryPath w.homedir dir ≠ "")
    (ht : w.topLevel = some t) (hc : w.commonDir = some c)
    (hid : w.idFile = some pid) (hpt : jsTrimStr pid ≠ "")
    (htgt : normalizeDirectoryPath w.homedir input.directory ≠ "")
    (hcanon : w.canon (normalizeDirectoryPath w.homedir input.directory) =
      w.canon (jsDirname c)) :
    removeWorktree w dir input = (.error "Cannot remove the primary workspace", w) := by
  unfold removeWorktree
  simp only []
  rw [if_neg htgt]
  rw [resolveCtx_cached w dir t c pid hdir ht hc hid hpt]
  simp only []
  rw [if_pos hcanon]

/-- C7 witness: the refusal applied at a concrete world and payload with
deleteLocalBranch requested. -/
theorem c7_removeWorktree_primary_witness :
    removeWorktree
      { topLevel := some "/repo", commonDir := some "/repo/.git", idFile := some "abc123",
        worktrees := some [{ worktree := "/repo", branchRef := some "refs/heads/main" }],
        localBranches := ["main"], dirs := ["/repo", "/repo/.git"],
        sandboxes := ["/x"] }
      "/repo" { directory := "/repo", deleteLocalBranch := some true } =
    (.error "Cannot remove the primary workspace",
     { topLevel := some "/repo", commonDir := some "/repo/.git", idFile := some "abc123",
       worktrees := some [{ worktree := "/repo", branchRef := some "refs/heads/main" }],
       localBranches := ["main"], dirs := ["/repo", "/repo/.git"],
       sandboxes := ["/x"] }) :=
  c7_removeWorktree_primary _ "/repo" _ "/repo" "/repo/.git" "abc123"
    (by decide) rfl rfl rfl (by decide) (by decide) (by decide)

/-! ### C6: removal of a target absent from the worktree list -/

/-- C6: when the (non-primary) removal target matches no entry of the
worktree list under canonical comparison, removal still succeeds: the
directory is deleted when present on disk (and only it), the path is
removed from the metadata store sandboxes list unconditionally, and no
branch or worktree record is touched. -/
theorem c6_removeWorktree_detached (w : WtWorld) (dir : String)
    (input : RemoveGitWorktreePayload) (t c pid target : String)
    (es : List WorktreeListEntry)
    (hdir : normalizeDirectoryPath w.homedir dir ≠ "")
    (ht : w.topLevel = some t) (hc : w.commonDir = some c)
    (hid : w.idFile = some pid) (hpt : jsTrimStr pid ≠ "")
    (htv : normalizeDirectoryPath w.homedir input.directory = target)
    (htgt : target ≠ "") (htr : jsTrimStr target = target)
    (hnotprim : w.canon target ≠ w.canon (jsDirname c))
    (hwt : w.worktrees = some es)
    (hnomatch : ∀ e ∈ es,
      (e.worktree != "" && w.canon e.worktree == w.canon target) = false) :
    (removeWorktree w dir input).1 = .ok true ∧
    (removeWorktree w dir input).2.dirs = w.dirs.filter (fun d => d ≠ target) ∧
    (removeWorktree w dir input).2.sandboxes =
      dedupAux [] (sandboxNorm ((sandboxNorm w.sandboxes).filter (fun e => e ≠ target))) ∧
    target ∉ (removeWorktree w dir input).2.sandboxes ∧
    (removeWorktree w dir input).2.localBranches = w.localBranches ∧
    (removeWorktree w dir input).2.worktrees = w.worktrees := by
  have hred : removeWorktree w dir input = (.ok true,
      syncProjectSandboxRemove
        (if w.dirs.contains target then
          { w with dirs := w.dirs.filter (fun d => d ≠ target) }
         else w)
        target) := by
    unfold removeWorktree
    simp only []
    rw [htv, if_neg htgt]
    rw [resolveCtx_cached w dir t c pid hdir ht hc hid hpt]
    simp only []
    rw [if_neg hnotprim]
    unfold listWorktreeEntries
    rw [hwt]
    simp only []
    rw [List.find?_eq_none.mpr (fun e he => by rw [hnomatch e he]; simp)]
  set W2 := (if w.dirs.contains target then
      { w with dirs := w.dirs.filter (fun d => d ≠ target) }
    else w) with hW2
  have hW2sand : W2.sandboxes = w.sandboxes := by
    rw [hW2]
    by_cases hcont : w.dirs.contains target = true
    · rw [if_pos hcont]
    · rw [if_neg hcont]
  have hW2dirs : W2.dirs = w.dirs.filter (fun d => d ≠ target) := by
    rw [hW2]
    by_cases hcont : w.dirs.contains target = true
    · rw [if_pos hcont]
    · rw [if_neg hcont]
      symm
      apply List.filter_eq_self.mpr
      intro a ha
      simp only [ne_eq, decide_eq_true_eq]
      intro heq
      subst heq
      exact hcont (List.elem_iff.mpr ha)
  have hW2lb : W2.localBranches = w.localBranches := by
    rw [hW2]
    by_cases hcont : w.dirs.contains target = true
    · rw [if_pos hcont]
    · rw [if_neg hcont]
  have hW2wt : W2.worktrees = w.worktrees := by
    rw [hW2]
    by_cases hcont : w.dirs.contains target = true
    · rw [if_pos hcont]
    · rw [if_neg hcont]
  have hsync : syncProjectSandboxRemove W2 target =
      { W2 with sandboxes :=
          (dedupAux [] (sandboxNorm ((sandboxNorm W2.sandboxes).filter (fun e => e ≠ target)))) } := by
    unfold syncProjectSandboxRemove
    rw [htr, if_neg htgt]
    rfl
  refine ⟨by rw [hred], ?_, ?_, ?_, ?_, ?_⟩
  · rw [hred]
    show (syncProjectSandboxRemove W2 target).dirs = _
    rw [hsync]
    exact hW2dirs
  · rw [hred]
    show (syncProjectSandboxRemove W2 target).sandboxes = _
    rw [hsync]
    simp only []
    rw [hW2sand]
  · rw [hred]
    show target ∉ (syncProjectSandboxRemove W2 target).sandboxes
    rw [hsync]
    simp only []
    rw [hW2sand]
    exact sandboxRemove_not_mem w.sandboxes target
  · rw [hred]
    show (syncProjectSandboxRemove W2 target).localBranches = _
    rw [hsync]
    exact hW2lb
  · rw [hred]
    show (syncProjectSandboxRemove W2 target).worktrees = _
    rw [hsync]
    exact hW2wt

/-- C6 witness: the theorem applied at a concrete world whose target is on
disk and registered but absent from the worktree list. -/
theorem c6_removeWorktree_detached_witness :
    ((removeWorktree
        { topLevel := some "/repo", commonDir := some "/repo/.git", idFile := some "abc123",
          worktrees := some [{ worktree := "/repo", branchRef := some "refs/heads/main" }],
          localBranches := ["main"], dirs := ["/repo", "/repo/.git", "/gone/wt"],
          sandboxes := ["/gone/wt", "/other"] }
        "/repo" { directory := "/gone/wt" }).1 = .ok true) ∧
    ((removeWorktree
        { topLevel := some "/repo", commonDir := some "/repo/.git", idFile := some "abc123",
          worktrees := some [{ worktree := "/repo", branchRef := some "refs/heads/main" }],
          localBranches := ["main"], dirs := ["/repo", "/repo/.git", "/gone/wt"],
          sandboxes := ["/gone/wt", "/other"] }
        "/repo" { directory := "/gone/wt" }).2.sandboxes = ["/other"]) := by
  have h := c6_removeWorktree_detached
    { topLevel := some "/repo", commonDir := some "/repo/.git", idFile := some "abc123",
      worktrees := some [{ worktree := "/repo", branchRef := some "refs/heads/main" }],
      localBranches := ["main"], dirs := ["/repo", "/repo/.git", "/gone/wt"],
      sandboxes := ["/gone/wt", "/other"] }
    "/repo" { directory := "/gone/wt" } "/repo" "/repo/.git" "abc123" "/gone/wt"
    [{ worktree := "/repo", branchRef := some "refs/heads/main" }]
    (by decide) rfl rfl rfl (by decide) (by decide) (by decide) (by decide) (by decide)
    rfl (by decide)
  exact ⟨h.1, by rw [h.2.2.1]; decide⟩

/-! ### C1: validation purity -/

/-- The common validation tail only appends to the carried error list when
the worktree listing succeeds, so a carried error survives into the
result. -/
theorem validateCommonTail_mem (w : WtWorld) (m : String)
    (errs : List GitWorktreeValidationError) (lb : String)
    (iu : Option (String × String)) (ern eru : String) (su : Bool) (ur ub : String)
    (es : List WorktreeListEntry) (hwt : w.worktrees = some es)
    (e : GitWorktreeValidationError) (he : e ∈ errs) :
    e ∈ (validateCommonTail w m errs lb iu ern eru su ur ub).errors := by
  have hf : ∃ o, (if lb ≠ "" then findBranchInUse w lb else .ok none) =
      (Except.ok o : Except String (Option WorktreeListEntry)) := by
    by_cases hlb : lb ≠ ""
    · rw [if_pos hlb]
      unfold findBranchInUse listWorktreeEntries
      rw [if_neg hlb, hwt]
      simp only []
      exact ⟨_, rfl⟩
    · rw [if_neg hlb]
      exact ⟨none, rfl⟩
  obtain ⟨o, ho⟩ := hf
  unfold validateCommonTail
  rw [ho]
  simp only []
  exact List.mem_append_left _ (List.mem_append_left _ (List.mem_append_left _ he))

/-- The new-mode validation part reports branch_exists on an existing
nonempty preferred branch. -/
theorem validateNewPart_branch_exists (w : WtWorld) (pb sr ern eru : String)
    (hpb : pb ≠ "") (hcont : w.localBranches.contains pb = true) :
    ({ code := "branch_exists", message := "Branch already exists: " ++ pb } :
        GitWorktreeValidationError) ∈ (validateNewPart w pb sr ern eru).1 := by
  unfold validateNewPart
  simp only []
  rw [if_pos (And.intro hpb hcont)]
  exact List.mem_append_left _ (List.mem_cons_self _ _)

/-- Reduction of a new-mode validation under a cached project marker: the
new-mode part runs on the unchanged world and the world is returned as
it came in. -/
theorem validateWorktreeCreate_new_red (w : WtWorld) (dir : String)
    (input : CreateGitWorktreePayload) (t c pid : String)
    (hdir : normalizeDirectoryPath w.homedir dir ≠ "")
    (ht : w.topLevel = some t) (hc : w.commonDir = some c)
    (hid : w.idFile = some pid) (hpt : jsTrimStr pid ≠ "")
    (hmode : input.mode ≠ some "existing") :
    validateWorktreeCreate w dir input =
      (validateCommonTail w "new"
        (validateNewPart w (cleanBranchName (jsTrimStr (input.branchName.getD "")))
          (normalizeStartRef input.startRef)
          (jsTrimStr (input.ensureRemoteName.getD ""))
          (jsTrimStr (input.ensureRemoteUrl.getD ""))).1
        (validateNewPart w (cleanBranchName (jsTrimStr (input.branchName.getD "")))
          (normalizeStartRef input.startRef)
          (jsTrimStr (input.ensureRemoteName.getD ""))
          (jsTrimStr (input.ensureRemoteUrl.getD ""))).2.1
        (validateNewPart w (cleanBranchName (jsTrimStr (input.branchName.getD "")))
          (normalizeStartRef input.startRef)
          (jsTrimStr (input.ensureRemoteName.getD ""))
          (jsTrimStr (input.ensureRemoteUrl.getD ""))).2.2
        (jsTrimStr (input.ensureRemoteName.getD ""))
        (jsTrimStr (input.ensureRemoteUrl.getD ""))
        input.setUpstream (input.upstreamRemote.getD "") (input.upstreamBranch.getD ""), w) := by
  unfold validateWorktreeCreate
  simp only []
  rw [resolveCtx_cached w dir t c pid hdir ht hc hid hpt]
  simp only []
  rw [if_neg hmode]
  rw [if_neg (by decide : ¬ ("new" = "existing"))]

/-- C1 counterexample: a validation call on a repository whose OpenCode
project marker file does not exist yet writes the marker (the cached
project ID appears in the returned world) and registers the marker
directory as created, so validation is not free of filesystem writes. -/
theorem c1_counterexample :
    (validateWorktreeCreate
       { topLevel := some "/repo", commonDir := some "/repo/.git", idFile := none,
         revListRoots := some "alpha", worktrees := some [] }
       "/repo" {}).2.idFile = some "alpha" ∧
    (validateWorktreeCreate
       { topLevel := some "/repo", commonDir := some "/repo/.git", idFile := none,
         revListRoots := some "alpha", worktrees := some [] }
       "/repo" {}).2.dirs = ["/repo/.git"] := by
  exact ⟨rfl, rfl⟩

/-- C1 (amended): once the project marker is cached, a new-mode validation
is a pure dry run — the returned world is exactly the input world, so no
file, directory, branch, remote-tracking ref, remote, sandbox entry or
config write changes — and a new-mode request naming an existing preferred
branch reports the branch_exists error; on a repository without the cached
marker the validation call first creates the marker directory and writes
the marker file, so full purity holds only from the second call on. -/
theorem c1_validateWorktreeCreate_pure (w : WtWorld) (dir : String)
    (input : CreateGitWorktreePayload) (t c pid : String) (es : List WorktreeListEntry)
    (hdir : normalizeDirectoryPath w.homedir dir ≠ "")
    (ht : w.topLevel = some t) (hc : w.commonDir = some c)
    (hid : w.idFile = some pid) (hpt : jsTrimStr pid ≠ "")
    (hmode : input.mode ≠ some "existing")
    (hwt : w.worktrees = some es) :
    (validateWorktreeCreate w dir input).2 = w ∧
    (cleanBranchName (jsTrimStr (input.branchName.getD "")) ≠ "" →
     w.localBranches.contains (cleanBranchName (jsTrimStr (input.branchName.getD ""))) = true →
     ({ code := "branch_exists",
        message := "Branch already exists: " ++
          cleanBranchName (jsTrimStr (input.branchName.getD "")) } :
         GitWorktreeValidationError) ∈ (validateWorktreeCreate w dir input).1.errors) := by
  have hred := validateWorktreeCreate_new_red w dir input t c pid hdir ht hc hid hpt hmode
  constructor
  · rw [hred]
  · intro hpb hcont
    rw [hred]
    exact validateCommonTail_mem w "new" _ _ _ _ _ input.setUpstream _ _ es hwt _
      (validateNewPart_branch_exists w _ _ _ _ hpb hcont)

/-- C1 witness: the purity theorem applied at a concrete cached world with
a new-mode request naming the existing branch openchamber/demo. -/
theorem c1_validateWorktreeCreate_pure_witness :
    (validateWorktreeCreate
        { topLevel := some "/repo", commonDir := some "/repo/.git", idFile := some "abc123",
          worktrees := some [], localBranches := ["openchamber/demo"] }
        "/repo" { branchName := some "openchamber/demo" }).2 =
      { topLevel := some "/repo", commonDir := some "/repo/.git", idFile := some "abc123",
        worktrees := some [], localBranches := ["openchamber/demo"] } ∧
    ({ code := "branch_exists",
       message := "Branch already exists: " ++
         cleanBranchName (jsTrimStr ((some "openchamber/demo").getD "")) } :
        GitWorktreeValidationError) ∈
      (validateWorktreeCreate
        { topLevel := some "/repo", commonDir := some "/repo/.git", idFile := some "abc123",
          worktrees := some [], localBranches := ["openchamber/demo"] }
        "/repo" { branchName := some "openchamber/demo" }).1.errors := by
  have h := c1_validateWorktreeCreate_pure
    { topLevel := some "/repo", commonDir := some "/repo/.git", idFile := some "abc123",
      worktrees := some [], localBranches := ["openchamber/demo"] }
    "/repo" { branchName := some "openchamber/demo" } "/repo" "/repo/.git" "abc123" []
    (by decide) rfl rfl rfl (by decide) (by decide) rfl
  exact ⟨h.1, h.2 (by decide) (by decide)⟩

/-! ### C2: new-mode naming -/

/-- A uniform pick from a nonempty word list is a member of the list. -/
theorem pickRandom_mem (values : List String) (k : Nat) (h : values ≠ []) :
    pickRandom values k ∈ values := by
  unfold pickRandom
  have hlen : 0 < values.length := List.length_pos.mpr h
  have hk : k % values.length < values.length := Nat.mod_lt _ hlen
  rw [List.getD_eq_getElem _ _ hk]
  exact List.getElem_mem _

/-- String append is associative. -/
theorem strAppend_assoc (a b c : String) : a ++ b ++ c = a ++ (b ++ c) := by
  cases a with
  | mk d1 =>
  cases b with
  | mk d2 =>
  cases c with
  | mk d3 =>
  exact congrArg String.mk (List.append_assoc d1 d2 d3)

/-- Shape of the candidate list for a nonempty slug: the attempt budget of
names, the bare slug first, then slug-adjective-noun variants over the two
word lists. -/
theorem resolveCandidates_shape (rng : Nat → Nat × Nat) (base : String)
    (h : slugWorktreeName base ≠ "") :
    (resolveWorktreeNameCandidates rng base).length = OPENCODE_WORKTREE_ATTEMPTS ∧
    (resolveWorktreeNameCandidates rng base)[0]? = some (slugWorktreeName base) ∧
    (∀ i, 0 < i → i < OPENCODE_WORKTREE_ATTEMPTS →
      ∃ a, a ∈ OPENCODE_ADJECTIVES ∧ ∃ n, n ∈ OPENCODE_NOUNS ∧
        (resolveWorktreeNameCandidates rng base)[i]? =
          some (slugWorktreeName base ++ "-" ++ a ++ "-" ++ n)) := by
  unfold resolveWorktreeNameCandidates
  simp only []
  rw [if_neg h]
  refine ⟨by simp, ?_, ?_⟩
  · rw [List.getElem?_map,
      List.getElem?_range (by decide : (0 : Nat) < OPENCODE_WORKTREE_ATTEMPTS)]
    rfl
  · intro i h0 hlt
    refine ⟨pickRandom OPENCODE_ADJECTIVES (rng i).1, pickRandom_mem _ _ (by decide),
            pickRandom OPENCODE_NOUNS (rng i).2, pickRandom_mem _ _ (by decide), ?_⟩
    rw [List.getElem?_map, List.getElem?_range hlt]
    simp only [Option.map]
    rw [if_neg (Nat.pos_iff_ne_zero.mp h0)]
    unfold generateOpenCodeRandomName
    simp only [strAppend_assoc]

/-- A successful run of the candidate loop accepts exactly the first
candidate that is not rejected: the names before it are all rejected, the
accepted one is not, and its directory and branch have the loop's form. -/
theorem resolveCandidateGo_ok (w : WtWorld) (root ebn : String) :
    ∀ (names : List String) (r : CandidateResult),
      resolveCandidateDirectoryGo w root ebn names = .ok r →
      ∃ pre post, names = pre ++ r.name :: post ∧
        (∀ n ∈ pre, candidateRejected w root ebn n = true) ∧
        candidateRejected w root ebn r.name = false ∧
        r.directory = root ++ "/" ++ r.name ∧
        r.branch = (if ebn = "" then "openchamber/" ++ r.name else ebn) := by
  intro names
  induction names with
  | nil =>
    intro r h
    simp [resolveCandidateDirectoryGo] at h
  | cons name rest ih =>
    intro r h
    unfold resolveCandidateDirectoryGo at h
    simp only [] at h
    by_cases hd : w.dirs.contains (root ++ "/" ++ name) = true
    · rw [if_pos hd] at h
      obtain ⟨pre, post, hsplit, hrej, hacc, hdi, hb⟩ := ih r h
      refine ⟨name :: pre, post, by rw [hsplit]; rfl, ?_, hacc, hdi, hb⟩
      intro n hn
      rcases List.mem_cons.mp hn with hn | hn
      · subst hn
        unfold candidateRejected
        rw [hd, Bool.true_or]
      · exact hrej n hn
    · rw [if_neg hd] at h
      have hd2 : w.dirs.contains (root ++ "/" ++ name) = false := by
        simp only [Bool.not_eq_true] at hd
        exact hd
      by_cases he : ebn ≠ ""
      · rw [if_pos he] at h
        have hr := Except.ok.inj h
        subst hr
        refine ⟨[], rest, rfl, fun n hn => absurd hn (List.not_mem_nil n), ?_, rfl, ?_⟩
        · unfold candidateRejected
          rw [hd2, Bool.false_or, beq_eq_false_iff_ne.mpr he, Bool.false_and]
        · rw [if_neg he]
      · have he2 : ebn = "" := not_not.mp he
        rw [if_neg he] at h
        by_cases hb : w.localBranches.contains ("openchamber/" ++ name) = true
        · rw [if_pos hb] at h
          obtain ⟨pre, post, hsplit, hrej, hacc, hdi, hbr⟩ := ih r h
          refine ⟨name :: pre, post, by rw [hsplit]; rfl, ?_, hacc, hdi, hbr⟩
          intro n hn
          rcases List.mem_cons.mp hn with hn | hn
          · subst hn
            unfold candidateRejected
            rw [he2, hb, Bool.and_true, beq_self_eq_true, Bool.or_true]
          · exact hrej n hn
        · rw [if_neg hb] at h
          have hb2 : w.localBranches.contains ("openchamber/" ++ name) = false := by
            simp only [Bool.not_eq_true] at hb
            exact hb
          have hr := Except.ok.inj h
          subst hr
          refine ⟨[], rest, rfl, fun n hn => absurd hn (List.not_mem_nil n), ?_, rfl, ?_⟩
          · unfold candidateRejected
            rw [hd2, Bool.false_or, hb2, Bool.and_false]
          · rw [if_pos he2]

/-- C2: createWorktree new-mode naming. The candidate list of a nonempty
slug holds twenty-six names, the bare slug first and then
slug-adjective-noun variants from the two fixed word lists; the candidate
loop accepts exactly the first candidate that is not rejected (directory
taken, or — without an explicit branch override — derived branch
openchamber/name already a local branch), exhausting the list is the fatal
unique-name error; concretely, a demo request yields name demo with branch
openchamber/demo, with the demo directory taken it yields the
adjective-noun variant demo-brave-cabin, and with every candidate
directory taken createWorktree fails with the unique-name error. -/
theorem c2_createWorktree_naming :
    (∀ (rng : Nat → Nat × Nat) (base : String), slugWorktreeName base ≠ "" →
      (resolveWorktreeNameCandidates rng base).length = OPENCODE_WORKTREE_ATTEMPTS ∧
      (resolveWorktreeNameCandidates rng base)[0]? = some (slugWorktreeName base) ∧
      (∀ i, 0 < i → i < OPENCODE_WORKTREE_ATTEMPTS →
        ∃ a, a ∈ OPENCODE_ADJECTIVES ∧ ∃ n, n ∈ OPENCODE_NOUNS ∧
          (resolveWorktreeNameCandidates rng base)[i]? =
            some (slugWorktreeName base ++ "-" ++ a ++ "-" ++ n))) ∧
    (∀ (w : WtWorld) (root ebn : String) (names : List String) (r : CandidateResult),
      resolveCandidateDirectoryGo w root ebn names = .ok r →
      ∃ pre post, names = pre ++ r.name :: post ∧
        (∀ n ∈ pre, candidateRejected w root ebn n = true) ∧
        candidateRejected w root ebn r.name = false ∧
        r.directory = root ++ "/" ++ r.name ∧
        r.branch = (if ebn = "" then "openchamber/" ++ r.name else ebn)) ∧
    (∀ (w : WtWorld) (root ebn : String),
      resolveCandidateDirectoryGo w root ebn [] =
        .error "Failed to generate a unique worktree name") ∧
    ((createWorktree demoWorld "/repo" { worktreeName := some "demo" }).1 =
      .ok { head := "", name := "demo", branch := "openchamber/demo",
            path := "/data/opencode/worktree/abc123/demo" }) ∧
    ((createWorktree demoTakenWorld "/repo" { worktreeName := some "demo" }).1 =
      .ok { head := "", name := "demo" ++ "-" ++ "brave" ++ "-" ++ "cabin",
            branch := "openchamber/demo-brave-cabin",
            path := "/data/opencode/worktree/abc123/demo-brave-cabin" } ∧
     "brave" ∈ OPENCODE_ADJECTIVES ∧ "cabin" ∈ OPENCODE_NOUNS) ∧
    ((createWorktree demoExhaustedWorld "/repo" { worktreeName := some "demo" }).1 =
      .error "Failed to generate a unique worktree name") := by
  refine ⟨resolveCandidates_shape, resolveCandidateGo_ok, fun w root ebn => rfl,
    by rfl, ⟨by rfl, by decide, by decide⟩, by rfl⟩

/-- C2 witness: the naming theorem applied at concrete inputs — the demo
slug is nonempty (list head and an adjective-noun entry), and a concrete
one-element candidate list is accepted with its rejection test false. -/
theorem c2_createWorktree_naming_witness :
    (resolveWorktreeNameCandidates (fun _ => (0, 0)) "demo")[0]? =
      some (slugWorktreeName "demo") ∧
    (∃ a, a ∈ OPENCODE_ADJECTIVES ∧ ∃ n, n ∈ OPENCODE_NOUNS ∧
      (resolveWorktreeNameCandidates (fun _ => (0, 0)) "demo")[1]? =
        some (slugWorktreeName "demo" ++ "-" ++ a ++ "-" ++ n)) ∧
    candidateRejected demoWorld "/data/opencode/worktree/abc123" "" "demo" = false := by
  have h := c2_createWorktree_naming
  have hs := h.1 (fun _ => (0, 0)) "demo" (by decide)
  have hacc := h.2.1 demoWorld "/data/opencode/worktree/abc123" "" ["demo"]
    { name := "demo", directory := "/data/opencode/worktree/abc123/demo",
      branch := "openchamber/demo" } (by rfl)
  obtain ⟨pre, post, hsplit, hrejpre, hrejself, hdi, hbr⟩ := hacc
  exact ⟨hs.2.1, hs.2.2 1 (by decide) (by decide), hrejself⟩

end GitService
